import Mathlib

/-!
# Verification of the `gfx_contour` iso-contour tracing engine

Shallow embedding of `src/Contour.js` (class `Contour`, revision 0.2.0).

Modelling conventions:
* JS numbers (IEEE doubles) are modelled as exact rationals `ℚ`.  The guard
  `Math.abs(m2 - m1) < Number.MIN_VALUE` holds in IEEE arithmetic iff
  `m2 - m1` is exactly zero (`Number.MIN_VALUE` is the least positive double),
  so it is embedded as an equality test.
* Integer-valued JS variables (loop counters, level indices, direction codes,
  cursor coordinates) are modelled as `ℤ` (or `ℕ` for the direction code,
  which only ever holds 0..3).
* JS array reads out of bounds yield `undefined`; the reads that feed
  comparisons with `undefined` (which are always false in JS) are modelled
  with `Option ℚ`; reads that are in range in every reachable state are
  modelled with `getD` defaults.
* The mutable `this.bounds` array and all the locals of `threadContour` are
  gathered into an explicit state record `TCState`; one iteration of the
  `while (!bExit)` loop is the function `step`, iterated by `runSteps` with
  explicit fuel.  The extra field `interpKnt` is a ghost counter that is
  incremented exactly where the code pushes an interpolated point
  (`contVec.x.push(u)` inside the `if (bCont)` block) and is read by no part
  of the step function.
-/

attribute [local semireducible] Rat.add Rat.mul Rat.sub Rat.inv Rat.ofScientific

namespace GfxContour

/-- Absolute value on `ℚ`, written so that it reduces in the kernel
(definitionally equal to `|q|`, see `absQ_eq_abs`). -/
def absQ (q : ℚ) : ℚ := if q < 0 then -q else q

/-- `Math.min` on two numbers (kernel-reducible form of `min`). -/
def jsMin (a b : ℚ) : ℚ := if a ≤ b then a else b

/-- `Math.max` on two numbers (kernel-reducible form of `max`). -/
def jsMax (a b : ℚ) : ℚ := if b ≤ a then a else b

/-- `Math.ceil` on a rational, computed from the normalized
numerator/denominator so that it reduces in the kernel: an integer is its
own ceiling, and a non-integer rational in lowest terms has ceiling
`floor + 1 = num / den + 1` (division on ℤ rounds toward negative
infinity), which matches `Math.ceil` on negatives as well
(ceil(-1/2) = 0, ceil(-5/2) = -2). -/
def ratCeil (q : ℚ) : ℤ :=
  if q.den = 1 then q.num else q.num / (q.den : ℤ) + 1

/-- `Number.MAX_VALUE`, the largest finite IEEE double, exactly
(the integer 2^1024 - 2^971, written as a literal so that it reduces). -/
def numberMAX : ℚ := 179769313486231570814527423731704356798070567525844996598917476803157260780028538760589558632766878171540458953514382464234321326889464182768467546703537516986049910576551282076245490090389328944075868508455133942304583236903222948165808559332123348274797826204144723168738177180919299881250404026184124858368

/-- `MAX_LOOP_LIMIT` sentinel from Contour.js. -/
def MAX_LOOP_LIMIT : ℤ := 255

/-- `EPSILON` from Contour.js (0.0005). -/
def EPSILON : ℚ := 1/2000

/-- `CLOCKWISE` constant. -/
def CLOCKWISE : ℤ := 1

/-- `COUNTERCLOCKWISE` constant. -/
def COUNTERCLOCKWISE : ℤ := -1

/-- `CLOSED` constant. -/
def CLOSED : ℤ := 0

/-- `xdirec = [1, 0, -1, 0]`. -/
def xdirec (d : ℕ) : ℤ := [1, 0, -1, 0].getD d 0

/-- `ydirec = [0, 1, 0, -1]`. -/
def ydirec (d : ℕ) : ℤ := [0, 1, 0, -1].getD d 0

/-- `nexd = [1, 2, 3, 0]` (rotate to the next probe direction). -/
def nexd (d : ℕ) : ℕ := [1, 2, 3, 0].getD d 0

/-- `nsd = [3, 0, 1, 2]` (continuation direction after consuming a crossing). -/
def nsd (d : ℕ) : ℕ := [3, 0, 1, 2].getD d 0

/-- `id = [2, 3, 0, 1]` (loop-closure comparison direction); renamed `idT`
to avoid clashing with the Lean identity function. -/
def idT (d : ℕ) : ℕ := [2, 3, 0, 1].getD d 0

/-- `class ContourLimit` with its field initializers. -/
structure ContourLimit where
  top0 : ℤ := MAX_LOOP_LIMIT
  bot0 : ℤ := MAX_LOOP_LIMIT
  top1 : ℤ := MAX_LOOP_LIMIT
  bot1 : ℤ := MAX_LOOP_LIMIT
  CW0 : ℤ := CLOSED
  CW1 : ℤ := CLOSED
deriving DecidableEq, Repr

/-- `class ContourVector`.  Fields `stCW`, `finCW`, `stEdge`, `finEdge` are
declared without initializers in JS (hence `undefined` until assigned);
they are modelled as `Option`.  The `elmKnt` field is never assigned nor
read anywhere in the source and is omitted. -/
structure ContourVector where
  x : List ℚ := []
  y : List ℚ := []
  stCW : Option ℤ := none
  finCW : Option ℤ := none
  stEdge : Option ℤ := none
  finEdge : Option ℤ := none
deriving DecidableEq, Repr

/-- Read a grid sample `array[y][x]`; out-of-range reads default to 0
(they are unreachable in the runs considered). -/
def gridAt (g : List (List ℚ)) (y x : ℤ) : ℚ :=
  if 0 ≤ y ∧ 0 ≤ x then (g.getD y.toNat []).getD x.toNat 0 else 0

/-- Read `this.bounds[y][x]`. -/
def boundsAt (b : List (List ContourLimit)) (y x : ℤ) : ContourLimit :=
  if 0 ≤ y ∧ 0 ≤ x then (b.getD y.toNat []).getD x.toNat {} else {}

/-- Write `this.bounds[y][x]` (mutation of the record the JS alias `bound`
points to). -/
def boundsSet (b : List (List ContourLimit)) (y x : ℤ) (cl : ContourLimit) :
    List (List ContourLimit) :=
  if 0 ≤ y ∧ 0 ≤ x then b.set y.toNat ((b.getD y.toNat []).set x.toNat cl) else b

/-- JS array read that may yield `undefined`. -/
def optGet (l : List ℚ) (i : ℤ) : Option ℚ :=
  if 0 ≤ i then l.get? i.toNat else none

/-- JS `<` on possibly-`undefined` operands: any comparison involving
`undefined` (NaN) is false. -/
def oLt (a b : Option ℚ) : Bool :=
  match a, b with
  | some a, some b => decide (a < b)
  | _, _ => false

/-- `fpsign(arg)`. -/
def fpsign (arg : ℚ) : ℚ := if arg < 0 then -1 else 1

/-- `fpnear(a, b)` on a possibly-`undefined` first operand
(`Math.abs(undefined - b) < EPSILON` is false in JS). -/
def oNear (a : Option ℚ) (b : ℚ) : Bool :=
  match a with
  | some a => decide (absQ (a - b) < EPSILON)
  | none => false

/-- `FindEdge(x, y, xmax, ymax)`: LEFT = 0, TOP = 1, RIGHT = 2, BOTTOM = 3. -/
def FindEdge (x y : Option ℚ) (xmax ymax : ℚ) : ℤ :=
  if oNear x xmax then 2
  else if oNear y ymax then 1
  else if oNear y 0 then 3
  else 0

/-- The first delta-nudge of `threadContour`'s interpolation block:
`if (Math.abs(contourLevel - m) <= delta) m += ((other > m) ? delta : -delta)`. -/
def nudge (contourLevel delta m other : ℚ) : ℚ :=
  if absQ (contourLevel - m) ≤ delta then m + (if other > m then delta else -delta) else m

/-- The raw interpolation parameter: `tt = 0` when the (possibly nudged)
samples coincide (`Math.abs(m2 - m1) < Number.MIN_VALUE`, i.e. exact
equality of doubles), else `(contourLevel - m1) / (m2 - m1)`. -/
def rawT (m1 m2 contourLevel : ℚ) : ℚ :=
  if m2 - m1 = 0 then 0 else (contourLevel - m1) / (m2 - m1)

/-- The full interpolation parameter computation of the `if (bCont)` block of
`threadContour` (Contour.js lines 317-329): nudge `m1`, then nudge `m2`
against the updated `m1`, take the raw parameter, then clamp
`|tt| >= 1` to `(1 - delta) * fpsign(tt)`. -/
def interpT (m1 m2 contourLevel delta : ℚ) : ℚ :=
  let m1n := nudge contourLevel delta m1 m2
  let m2n := nudge contourLevel delta m2 m1n
  let tt := rawT m1n m2n contourLevel
  if absQ tt ≥ 1 then (1 - delta) * fpsign tt else tt

/-- Fuelled form of the descending scan of `getTB` (structural recursion so
that it reduces in the kernel); `scanT` supplies sufficient fuel and
satisfies the exact while-loop equation, see `scanT_eq`. -/
def scanTAux (L : List ℚ) (hi : ℚ) : ℕ → ℤ → ℤ
  | 0, t => t
  | f + 1, t => if 0 < t ∧ L.getD t.toNat 0 > hi then scanTAux L hi f (t - 1) else t

/-- `scanT`: the descending scan of `getTB`,
`t = uplim; while (t > 0 && contLevels[t] > hi) t--`. -/
def scanT (L : List ℚ) (hi : ℚ) (t : ℤ) : ℤ := scanTAux L hi t.toNat t

/-- Fuelled form of the ascending scan of `getTB`; `scanB` supplies
sufficient fuel and satisfies the exact while-loop equation, see
`scanB_eq`. -/
def scanBAux (L : List ℚ) (lo : ℚ) (t : ℤ) : ℕ → ℤ → ℤ
  | 0, b => b
  | f + 1, b => if b ≤ t ∧ L.getD b.toNat 0 ≤ lo then scanBAux L lo t f (b + 1) else b

/-- `scanB`: the ascending scan of `getTB`,
`b = 0; while (b <= t && contLevels[b] <= lo) b++`. -/
def scanB (L : List ℚ) (lo : ℚ) (t b : ℤ) : ℤ := scanBAux L lo t (t + 1 - b).toNat b

/-- The fuelled descending scan is insensitive to surplus fuel. -/
theorem scanTAux_fuel (L : List ℚ) (hi : ℚ) :
    ∀ f g t, t.toNat ≤ f → t.toNat ≤ g → scanTAux L hi f t = scanTAux L hi g t := by
  intro f
  induction f with
  | zero =>
    intro g t hf _
    have hnc : ¬(0 < t ∧ L.getD t.toNat 0 > hi) := by
      rintro ⟨h1, -⟩
      omega
    cases g with
    | zero => rfl
    | succ g =>
      simp only [scanTAux]
      rw [if_neg hnc]
  | succ f ih =>
    intro g t hf hg
    cases g with
    | zero =>
      have hnc : ¬(0 < t ∧ L.getD t.toNat 0 > hi) := by
        rintro ⟨h1, -⟩
        omega
      simp only [scanTAux]
      rw [if_neg hnc]
    | succ g =>
      simp only [scanTAux]
      by_cases hc : 0 < t ∧ L.getD t.toNat 0 > hi
      · rw [if_pos hc, if_pos hc]
        exact ih g (t - 1) (by omega) (by omega)
      · rw [if_neg hc, if_neg hc]

/-- `scanT` satisfies the exact while-loop equation of `getTB`. -/
theorem scanT_eq (L : List ℚ) (hi : ℚ) (t : ℤ) :
    scanT L hi t = if 0 < t ∧ L.getD t.toNat 0 > hi then scanT L hi (t - 1) else t := by
  unfold scanT
  by_cases hc : 0 < t ∧ L.getD t.toNat 0 > hi
  · rw [if_pos hc]
    have he : t.toNat = (t - 1).toNat + 1 := by
      have h1 : 0 < t := hc.1
      omega
    rw [he]
    simp only [scanTAux]
    rw [if_pos hc]
  · rw [if_neg hc]
    cases hn : t.toNat with
    | zero => rfl
    | succ f =>
      simp only [scanTAux]
      rw [if_neg hc]

/-- The fuelled ascending scan is insensitive to surplus fuel. -/
theorem scanBAux_fuel (L : List ℚ) (lo : ℚ) (t : ℤ) :
    ∀ f g b, (t + 1 - b).toNat ≤ f → (t + 1 - b).toNat ≤ g →
      scanBAux L lo t f b = scanBAux L lo t g b := by
  intro f
  induction f with
  | zero =>
    intro g b hf _
    have hnc : ¬(b ≤ t ∧ L.getD b.toNat 0 ≤ lo) := by
      rintro ⟨h1, -⟩
      omega
    cases g with
    | zero => rfl
    | succ g =>
      simp only [scanBAux]
      rw [if_neg hnc]
  | succ f ih =>
    intro g b hf hg
    cases g with
    | zero =>
      have hnc : ¬(b ≤ t ∧ L.getD b.toNat 0 ≤ lo) := by
        rintro ⟨h1, -⟩
        omega
      simp only [scanBAux]
      rw [if_neg hnc]
    | succ g =>
      simp only [scanBAux]
      by_cases hc : b ≤ t ∧ L.getD b.toNat 0 ≤ lo
      · rw [if_pos hc, if_pos hc]
        exact ih g (b + 1) (by omega) (by omega)
      · rw [if_neg hc, if_neg hc]

/-- `scanB` satisfies the exact while-loop equation of `getTB`. -/
theorem scanB_eq (L : List ℚ) (lo : ℚ) (t b : ℤ) :
    scanB L lo t b = if b ≤ t ∧ L.getD b.toNat 0 ≤ lo then scanB L lo t (b + 1) else b := by
  unfold scanB
  by_cases hc : b ≤ t ∧ L.getD b.toNat 0 ≤ lo
  · rw [if_pos hc]
    have he : (t + 1 - b).toNat = (t + 1 - (b + 1)).toNat + 1 := by
      have h1 : b ≤ t := hc.1
      omega
    rw [he]
    simp only [scanBAux]
    rw [if_pos hc]
  · rw [if_neg hc]
    cases hn : (t + 1 - b).toNat with
    | zero => rfl
    | succ f =>
      simp only [scanBAux]
      rw [if_neg hc]

/-- `getTB(v, u, uplim)` from Contour.js: returns the pair `(t, b)`. -/
def getTB (L : List ℚ) (v u : ℚ) (uplim : ℤ) : ℤ × ℤ :=
  if v > u then
    let t := scanT L v uplim
    (t, scanB L u t 0)
  else
    let t := scanT L u uplim
    (t, scanB L v t 0)

/-- The outcome of `allocBounds`' min/max scan: `minZ` starts at
`Number.MAX_VALUE`, `maxZ` at `-Number.MAX_VALUE`, folded over
`array[i][j]` for `i < array.length`, `j < array[0].length`. -/
def allocScan (g : List (List ℚ)) : ℚ × ℚ :=
  let mf := g.length
  let nf := (g.getD 0 []).length
  (List.range mf).foldl
    (fun p i =>
      (List.range nf).foldl
        (fun q j =>
          (jsMin q.1 ((g.getD i []).getD j 0), jsMax q.2 ((g.getD i []).getD j 0)))
        p)
    (numberMAX, -numberMAX)

/-- `setContLevels`: `nCont = Math.ceil((maxZ - minZ) / contInterval)` levels
at `minZ + i * contInterval`, and `delta = (maxZ - minZ) / DELTA_DIV`.
Fidelity caveat: at `contInterval = 0` with `maxZ > minZ` the source
computes `nCont = Math.ceil(Infinity)` and its level-pushing loop never
terminates, whereas the ℚ division convention `x / 0 = 0` makes this total
embedding return `nCont = 0`; the embedding is therefore faithful only for
`contInterval ≠ 0`, and nothing below invokes it at 0. -/
def setContLevels (minZ maxZ contInterval : ℚ) : List ℚ × ℚ :=
  let nCont : ℤ := ratCeil ((maxZ - minZ) / contInterval)
  ((List.range nCont.toNat).map (fun i => minZ + (i : ℚ) * contInterval),
   (maxZ - minZ) / 10000)

/-- One `ContourLimit` record as written by `initFlags` for vertex `(i, j)`:
the rightward (limb 0) fields when `j < nf - 1`, the upward (limb 1) fields
when `i < mf - 1`. -/
def mkLimit (g : List (List ℚ)) (L : List ℚ) (mf nf i j : ℕ) : ContourLimit :=
  let uplim : ℤ := (L.length : ℤ) - 1
  let u := (g.getD i []).getD j 0
  let base : ContourLimit := {}
  let base :=
    if j + 1 < nf then
      let v := (g.getD i []).getD (j + 1) 0
      let tb := getTB L v u uplim
      { base with
        CW0 := if v < u then COUNTERCLOCKWISE else CLOCKWISE
        top0 := tb.1, bot0 := tb.2 }
    else base
  if i + 1 < mf then
    let v := (g.getD (i + 1) []).getD j 0
    let tb := getTB L v u uplim
    { base with
      CW1 := if v > u then COUNTERCLOCKWISE else CLOCKWISE
      top1 := tb.1, bot1 := tb.2 }
  else base

/-- `initFlags`: the whole `this.bounds` table. -/
def initFlags (g : List (List ℚ)) (L : List ℚ) : List (List ContourLimit) :=
  let mf := g.length
  let nf := (g.getD 0 []).length
  (List.range mf).map (fun i => (List.range nf).map (fun j => mkLimit g L mf nf i j))

/-- The immutable per-session configuration established by `setupContours`:
`ns = ms = 0`, `mf = array.length`, `nf = array[0].length`, the level list
and `delta`. -/
structure ContourCfg where
  ns : ℤ := 0
  ms : ℤ := 0
  nf : ℤ
  mf : ℤ
  delta : ℚ
  contLevels : List ℚ
deriving DecidableEq, Repr

/-- `allocBounds` + `setContLevels` combined: the configuration and the
freshly initialized bounds table. -/
def setupFor (g : List (List ℚ)) (contInterval : ℚ) :
    ContourCfg × List (List ContourLimit) :=
  let mm := allocScan g
  let ld := setContLevels mm.1 mm.2 contInterval
  ({ ns := 0, ms := 0
     nf := ((g.getD 0 []).length : ℤ)
     mf := (g.length : ℤ)
     delta := ld.2
     contLevels := ld.1 },
   initFlags g ld.1)

/-- `setupContours` wrapped in `Except`: the only runtime failure point in
`setupContours` is `allocBounds` reading `array[0].length` when the grid has
zero rows (a TypeError); no other input validation exists anywhere in
`allocBounds`, `setContLevels` or `initFlags`. -/
def setupContoursE (g : List (List ℚ)) (contInterval : ℚ) :
    Except Unit (ContourCfg × List (List ContourLimit)) :=
  if g.length = 0 then .error () else .ok (setupFor g contInterval)

/-- The mutable state of one `threadContour` run: the locals of the function
together with the mutated `this.bounds` and `this.contourVectors`.
`lmb`, `ylmb`, `xlmb` persist across iterations (they are read, stale, in
the out-of-range finishing branch).  `interpKnt` is a ghost counter of
interpolated points (see module doc). -/
structure TCState where
  bounds : List (List ContourLimit)
  contourVectors : List ContourVector := []
  contVec : ContourVector := {}
  bExit : Bool := false
  bStart : Bool := true
  bEdg : Bool := true
  dt : ℕ := 0
  d0 : ℕ := 0
  direc : ℕ := 0
  lmb : ℕ := 0
  x0 : ℤ := 0
  y0 : ℤ := 0
  x1 : ℤ := 0
  y1 : ℤ := 0
  x2 : ℤ := 0
  y2 : ℤ := 0
  ylmb : ℤ := 0
  xlmb : ℤ := 0
  vecTop : ℤ := 0
  ccwknt : ℤ := 0
  ccwval : ℤ := 0
  interpKnt : ℕ := 0
deriving DecidableEq, Repr

/-- The probe phase of one loop iteration (the `inRange` closure): computes
`x2 = x1 + xdirec[direc]`, and only when `x2` is in X-range also
`y2 = y1 + ydirec[direc]` (otherwise `y2` keeps its stale value), returning
the updated state and `bInRange`. -/
def probe (cfg : ContourCfg) (s : TCState) : TCState × Bool :=
  let x2 := s.x1 + xdirec s.direc
  if cfg.ns ≤ x2 ∧ x2 < cfg.nf then
    let y2 := s.y1 + ydirec s.direc
    ({ s with x2 := x2, y2 := y2 },
     decide (cfg.ms ≤ y2 ∧ y2 < cfg.mf))
  else
    ({ s with x2 := x2 }, false)

/-- The limb selection of the `if (bInRange)` block (Contour.js lines
296-307): returns `(lmb, ylmb, xlmb)` from the cursor and the probed
neighbour. -/
def limbSel (s : TCState) : ℕ × ℤ × ℤ :=
  if s.x1 = s.x2 then (1, (if s.y2 > s.y1 then s.y1 else s.y2), s.x2)
  else (0, s.y1, (if s.x2 > s.x1 then s.x1 else s.x2))

/-- The limb check `bound.botX === contourNum` performed on a selected limb. -/
def limbFlag (b : List (List ContourLimit)) (ls : ℕ × ℤ × ℤ) (contourNum : ℤ) : Bool :=
  if ls.1 = 1 then decide ((boundsAt b ls.2.1 ls.2.2).bot1 = contourNum)
  else decide ((boundsAt b ls.2.1 ls.2.2).bot0 = contourNum)

/-- "mark this seg as used": advance the consumed limb, with the
`MAX_LOOP_LIMIT` sentinel when the counter passes the top. -/
def markUsed (bound : ContourLimit) (lmb : ℕ) : ContourLimit :=
  if lmb ≠ 0 then
    let b1 := bound.bot1 + 1
    { bound with bot1 := if b1 > bound.top1 then MAX_LOOP_LIMIT else b1 }
  else
    let b0 := bound.bot0 + 1
    { bound with bot0 := if b0 > bound.top0 then MAX_LOOP_LIMIT else b0 }

set_option maxHeartbeats 1000000 in
/-- The limb-selection and crossing-consumption phase (the body of
`if (bInRange) { ... }`, Contour.js lines 292-368), performed on a state
whose `x2`, `y2` have just been set by `probe`.  Returns the updated state
and the `bCont` flag. -/
def consume (g : List (List ℚ)) (cfg : ContourCfg) (contourNum : ℤ)
    (contourLevel : ℚ) (s : TCState) : TCState × Bool :=
  let ls := limbSel s
  let lmb := ls.1
  let ylmb := ls.2.1
  let xlmb := ls.2.2
  let bound := boundsAt s.bounds ylmb xlmb
  let bCont : Bool := limbFlag s.bounds ls contourNum
  let s := { s with lmb := lmb, ylmb := ylmb, xlmb := xlmb }
  if bCont then
    let m1 := gridAt g s.y1 s.x1
    let m2 := gridAt g s.y2 s.x2
    let tt := interpT m1 m2 contourLevel cfg.delta
    let u := (s.x2 - s.x1 : ℚ) * tt + (s.x1 : ℚ)
    let v := (s.y2 - s.y1 : ℚ) * tt + (s.y1 : ℚ)
    let cv := { s.contVec with x := s.contVec.x ++ [u], y := s.contVec.y ++ [v] }
    let vecTop := s.vecTop + 1
    -- first element: fix the entry slope value and start edge
    let ccwval : ℤ :=
      if vecTop = 1 then
        if lmb = 0 then
          (if (cv.x.getD 0 0 : ℚ) > 0 then -bound.CW0 else bound.CW0)
        else
          (if (cv.y.getD 0 0 : ℚ) > 0 then -bound.CW1 else bound.CW1)
      else s.ccwval
    let cv :=
      if vecTop = 1 then
        { cv with
          stCW := some ccwval
          stEdge := some (FindEdge (optGet cv.x 0) (optGet cv.y 0)
            ((cfg.nf : ℚ) - 1) ((cfg.mf : ℚ) - 1)) }
      else cv
    let ccwknt := s.ccwknt + ccwval
    -- mark this seg as used
    let bound' := markUsed bound lmb
    ({ s with
        contVec := cv
        vecTop := vecTop
        ccwval := ccwval
        ccwknt := ccwknt
        bounds := boundsSet s.bounds ylmb xlmb bound'
        interpKnt := s.interpKnt + 1 },
     true)
  else (s, false)

/-- The post-consumption branch logic of one loop iteration
(Contour.js lines 371-489): the `!bStart` (FOLLOWING) and `bStart`
(SCANNING) cases. -/
def branch (cfg : ContourCfg) (s : TCState) (bInRange bCont : Bool) : TCState :=
  if !s.bStart then
    if bInRange then
      if bCont then
        { s with dt := idT s.direc, direc := nsd s.direc }
      else
        let direc := nexd s.direc
        if direc = s.dt then
          -- closed: dup ends so curve closes
          let cv := s.contVec
          let cv := { cv with
            x := cv.x ++ [cv.x.getD 0 0]
            y := cv.y ++ [cv.y.getD 0 0]
            stCW := some CLOSED
            finCW := some (if s.ccwknt < 0 then COUNTERCLOCKWISE else CLOCKWISE) }
          { s with
            contourVectors := s.contourVectors ++ [cv]
            contVec := { finCW := some CLOSED }
            vecTop := 0
            ccwknt := 0
            direc := s.d0
            x1 := s.x0 + xdirec s.d0
            y1 := s.y0 + ydirec s.d0
            bStart := true }
        else
          { s with direc := direc, x1 := s.x2, y1 := s.y2 }
    else
      -- out of range: finish the open curve
      let bound := boundsAt s.bounds s.ylmb s.xlmb
      let lastx := optGet s.contVec.x (s.vecTop - 1)
      let prevx := optGet s.contVec.x (s.vecTop - 2)
      let lasty := optGet s.contVec.y (s.vecTop - 1)
      let prevy := optGet s.contVec.y (s.vecTop - 2)
      let finCW : ℤ :=
        if s.lmb = 0 then (if oLt lastx prevx then -bound.CW0 else bound.CW0)
        else (if oLt lasty prevy then -bound.CW1 else bound.CW1)
      let cv := { s.contVec with
        finCW := some finCW
        finEdge := some (FindEdge lastx lasty ((cfg.nf : ℚ) - 1) ((cfg.mf : ℚ) - 1)) }
      { s with
        contourVectors := s.contourVectors ++ [cv]
        contVec := { finCW := some CLOSED }
        vecTop := 0
        direc := s.d0
        x1 := s.x0 + xdirec s.d0
        y1 := s.y0 + ydirec s.d0
        bStart := true }
  else
    if bInRange then
      if bCont then
        -- first cell of a new curve: save anchor, move on
        { s with
          x0 := s.x1, y0 := s.y1, d0 := s.direc
          x1 := s.x2, y1 := s.y2
          dt := s.direc
          bStart := false
          direc := nexd s.direc }
      else
        { s with x1 := s.x2, y1 := s.y2 }
    else
      if s.bEdg then
        if s.y2 < cfg.ms then
          { s with x1 := cfg.ns, y1 := cfg.ms + 1, direc := 0, bEdg := false }
        else
          { s with direc := nexd s.direc }
      else
        if s.direc = 1 then
          let x1 := s.x1 + 1
          { s with y1 := cfg.ms, x1 := x1, bExit := decide (x1 ≥ cfg.nf) }
        else
          let y1 := s.y1 + 1
          if y1 ≥ cfg.mf then
            { s with x1 := cfg.ns + 1, y1 := cfg.ms, direc := 1 }
          else
            { s with y1 := y1, x1 := cfg.ns }

/-- One full iteration of the `while (!bExit)` loop of `threadContour`. -/
def step (g : List (List ℚ)) (cfg : ContourCfg) (contourNum : ℤ)
    (contourLevel : ℚ) (s : TCState) : TCState :=
  let pr := probe cfg s
  if pr.2 then
    let cs := consume g cfg contourNum contourLevel pr.1
    branch cfg cs.1 true cs.2
  else
    branch cfg pr.1 false false

/-- Iterate `step` until `bExit` or until the fuel runs out. -/
def runSteps (g : List (List ℚ)) (cfg : ContourCfg) (contourNum : ℤ)
    (contourLevel : ℚ) : ℕ → TCState → TCState
  | 0, s => s
  | n + 1, s =>
    if s.bExit then s else runSteps g cfg contourNum contourLevel n (step g cfg contourNum contourLevel s)

/-- The initial `threadContour` state built from its local-variable
initializers (Contour.js lines 257-284), over a given bounds table. -/
def initState (cfg : ContourCfg) (bounds : List (List ContourLimit)) : TCState :=
  { bounds := bounds
    x1 := cfg.ns
    y1 := cfg.ms }

/-- One `threadContour(array, contourNum, contourLevel)` call on a freshly
set-up session (`setupContours(array)` uses interval 2.0), run with the
given fuel. -/
def threadRun (g : List (List ℚ)) (contourNum : ℤ) (contourLevel : ℚ)
    (fuel : ℕ) : TCState :=
  let sc := setupFor g 2
  runSteps g sc.1 contourNum contourLevel fuel (initState sc.1 sc.2)

/-- A multi-level tracing session: `threadContour` invoked once per
`(contourNum, contourLevel)` pair, reusing the same mutated bounds table and
accumulating `this.contourVectors` across calls, as the `Contour` object
does. -/
def traceLevels (g : List (List ℚ)) (contInterval : ℚ)
    (levels : List (ℤ × ℚ)) (fuel : ℕ) : TCState :=
  let sc := setupFor g contInterval
  levels.foldl
    (fun s p =>
      runSteps g sc.1 p.1 p.2 fuel
        { (initState sc.1 s.bounds) with contourVectors := s.contourVectors })
    (initState sc.1 sc.2)

/-- Twice the signed area of the polyline `(xs, ys)` by the shoelace
formula (summed over consecutive pairs; for a closed curve whose last point
duplicates its first this is the full loop integral). -/
def shoelace (xs ys : List ℚ) : ℚ :=
  ((xs.zip ys).zip ((xs.drop 1).zip (ys.drop 1))).foldl
    (fun a p => a + (p.1.1 * p.2.2 - p.2.1 * p.1.2)) 0

/-- The `bot` counter of one limb of a `ContourLimit` record
(limb 1 = vertical, otherwise limb 0 = horizontal). -/
def botOf (cl : ContourLimit) (lmb : ℕ) : ℤ :=
  if lmb = 1 then cl.bot1 else cl.bot0

/-- How many of the two limbs of a record have `bot` equal to `cn`. -/
def limbMatches (cn : ℤ) (cl : ContourLimit) : ℕ :=
  (if cl.bot0 = cn then 1 else 0) + (if cl.bot1 = cn then 1 else 0)

/-- Number of edge counters in the bounds table currently equal to `cn`. -/
def matchCount (b : List (List ContourLimit)) (cn : ℤ) : ℕ :=
  (b.map (fun row => (row.map (limbMatches cn)).sum)).sum

/-- How many of the two limbs of a record have a precomputed `[bot, top]`
range containing the level index `cn`. -/
def limbRanges (cn : ℤ) (cl : ContourLimit) : ℕ :=
  (if cl.bot0 ≤ cn ∧ cn ≤ cl.top0 then 1 else 0) +
  (if cl.bot1 ≤ cn ∧ cn ≤ cl.top1 then 1 else 0)

/-- Number of grid edges whose precomputed `[bot, top]` range contains the
level index `cn`. -/
def rangeCount (b : List (List ContourLimit)) (cn : ℤ) : ℕ :=
  (b.map (fun row => (row.map (limbRanges cn)).sum)).sum

/-! ## Interpolation parameter bounds -/

/-- Core bound: the clamped parameter is in the open interval `(-1, 1)`. -/
theorem clamp_bounds (delta : ℚ) (hd0 : 0 < delta) (hd1 : delta < 1) (t : ℚ) :
    -1 < (if absQ t ≥ 1 then (1 - delta) * fpsign t else t) ∧
      (if absQ t ≥ 1 then (1 - delta) * fpsign t else t) < 1 := by
  by_cases h : absQ t ≥ 1
  · rw [if_pos h]
    unfold fpsign
    by_cases hs : t < 0
    · rw [if_pos hs]
      constructor <;> nlinarith
    · rw [if_neg hs]
      constructor <;> nlinarith
  · rw [if_neg h]
    unfold absQ at h
    by_cases hneg : t < 0
    · rw [if_pos hneg] at h
      push_neg at h
      constructor <;> linarith
    · rw [if_neg hneg] at h
      push_neg at h
      constructor <;> linarith

/-- C5: for `0 < delta < 1` the interpolation parameter `tt` computed by the
`if (bCont)` block always satisfies `-1 < tt < 1` (the near-vertex nudge,
the equal-sample guard that avoids the zero-denominator division, and the
`(1 - delta) * sign` clamp together confine it), and the stored point is
`(x1 + tt*(x2-x1), y1 + tt*(y2-y1))` (the code computes
`(x2-x1)*tt + x1`, which is the same point). -/
theorem C5_interpolation_bounds (m1 m2 contourLevel delta x1 x2 y1 y2 : ℚ)
    (hd0 : 0 < delta) (hd1 : delta < 1) :
    (-1 < interpT m1 m2 contourLevel delta ∧ interpT m1 m2 contourLevel delta < 1) ∧
    ((x2 - x1) * interpT m1 m2 contourLevel delta + x1
        = x1 + interpT m1 m2 contourLevel delta * (x2 - x1) ∧
     (y2 - y1) * interpT m1 m2 contourLevel delta + y1
        = y1 + interpT m1 m2 contourLevel delta * (y2 - y1)) :=
  ⟨clamp_bounds delta hd0 hd1 _, by ring, by ring⟩

/-- Witness for C5 at `m1 = 0`, `m2 = 3`, level `2`, `delta = 1/2`. -/
theorem C5_interpolation_bounds_witness :
    ((0:ℚ) < 1/2 ∧ (1:ℚ)/2 < 1) ∧
    ((-1 < interpT 0 3 2 (1/2) ∧ interpT 0 3 2 (1/2) < 1) ∧
     ((1 - 0) * interpT 0 3 2 (1/2) + 0 = 0 + interpT 0 3 2 (1/2) * (1 - 0) ∧
      (1 - 0) * interpT 0 3 2 (1/2) + 0 = 0 + interpT 0 3 2 (1/2) * (1 - 0))) :=
  ⟨⟨by norm_num, by norm_num⟩,
   C5_interpolation_bounds 0 3 2 (1/2) 0 1 0 1 (by norm_num) (by norm_num)⟩

/-! ## Error-handling behaviour of construction (C8) -/

/-- C8 counterexample: a 1-by-1 grid (fewer than 2 rows and 2 columns) is
accepted by `setupContours` without any failure: construction returns
normally (with an empty level list), so no `InvalidInput` condition is
raised and tracing can be invoked. -/
theorem C8_cex :
    (setupContoursE [[(5:ℚ)]] 2).isOk = true ∧
    (setupFor [[(5:ℚ)]] 2).1.contLevels = [] ∧
    (setupFor [[(5:ℚ)]] 2).1.nf = 1 ∧ (setupFor [[(5:ℚ)]] 2).1.mf = 1 := by
  decide

/-- C8 amended: construction performs no input validation.  A 1-by-1 grid
is accepted; a negative contour interval is accepted and silently yields
an empty level list; a zero interval is accepted as well, but there the
source loops forever inside `setContLevels` (`nCont = Math.ceil(Infinity)`)
- a divergence outside this total embedding, see the fidelity caveat on
`setContLevels`; the only input that fails at all is a grid with zero
rows, which dies on the `array[0].length` read rather than with any
`InvalidInput` condition. -/
theorem C8_no_validation :
    (setupContoursE [[(0:ℚ),1],[1,0]] (-2)).isOk = true ∧
    (setupFor [[(0:ℚ),1],[1,0]] (-2)).1.contLevels = [] ∧
    (setupContoursE [[(5:ℚ)]] 2).isOk = true ∧
    (setupContoursE ([] : List (List ℚ)) 2).isOk = false := by
  decide

/-! ## Output tagging (C9) -/

/-- The common output of the two C9 counterexample runs. -/
def c9curve : List ContourVector :=
  [{ x := [1/2, 0], y := [0, 1/2],
     stCW := some (-1), finCW := some (-1), stEdge := some 3, finEdge := some 0 }]

/-- C9 counterexample: two `threadContour` calls at a different level index
and level value (index 1, value 2 on `[[0,4],[4,3]]`; index 2, value 4 on
`[[2,6],[6,0]]` - in both cases the value is the grid's own level at that
index) emit exactly the same non-empty `contourVectors` (`c9curve`).  Since
the emitted curves are identical, no function of an emitted curve can
recover which requested level it was traced for: curves carry no level
tag. -/
theorem C9_cex :
    (threadRun [[(0:ℚ),4],[4,3]] 1 2 20).contourVectors = c9curve ∧
    (threadRun [[(2:ℚ),6],[6,0]] 2 4 20).contourVectors = c9curve ∧
    c9curve ≠ [] ∧
    (threadRun [[(0:ℚ),4],[4,3]] 1 2 20).bExit = true ∧
    (threadRun [[(2:ℚ),6],[6,0]] 2 4 20).bExit = true ∧
    (setupFor [[(0:ℚ),4],[4,3]] 2).1.contLevels.getD 1 0 = 2 ∧
    (setupFor [[(2:ℚ),6],[6,0]] 2).1.contLevels.getD 2 0 = 4 :=
  ⟨by decide, by decide, by decide, by decide, by decide, by decide, by decide⟩

set_option maxHeartbeats 8000000 in
set_option maxRecDepth 100000 in
/-- C9 amended: an emitted `ContourVector` carries its closed/open status
and orientation tags but no level tag.  An open curve is emitted with
`stCW`, `finCW`, `stEdge` and `finEdge` all assigned (first run below); a
closed curve is emitted with `stCW = CLOSED`, an orientation `finCW` and
its `stEdge`, while the closure path never assigns `finEdge`, which stays
undefined (second run below, the pit trace, whose single curve is closed).
The level association exists only in the caller's pairing of each
`threadContour` invocation with its level. -/
theorem C9_tags_but_no_level :
    ((threadRun [[(0:ℚ),4],[4,3]] 1 2 20).contourVectors.all
      (fun v => v.stCW.isSome && v.finCW.isSome && v.stEdge.isSome && v.finEdge.isSome))
        = true ∧
    (threadRun [[(0:ℚ),4],[4,3]] 1 2 20).contourVectors.length = 1 ∧
    ((threadRun [[(10:ℚ),10,10],[10,0,10],[10,10,10]] 1 2 32).contourVectors.all
      (fun v => (v.stCW == some CLOSED) && v.finCW.isSome && v.stEdge.isSome &&
        (v.finEdge == none)))
        = true ∧
    (threadRun [[(10:ℚ),10,10],[10,0,10],[10,10,10]] 1 2 32).contourVectors.length = 1 :=
  ⟨by decide, by decide, by decide, by decide⟩

/-! ## Point-in-bounds (C6) -/

/-- C6 counterexample: on the grid `[[9/5, 1/5], [0, 3]]` (levels `[0, 2]`),
tracing level index 1 (value 2) emits a curve containing a point with
`x = -1/8 < 0`, outside the grid rectangle `[0, nf-1] x [0, mf-1]`.
The bottom edge has samples `9/5, 1/5`, so no level lies in
`(1/5, 9/5]` and its empty range is encoded `bot0 = 1 = top0 + 1`; the limb
check `bot0 === contourNum` nevertheless fires at level index 1, and the
unclamped parameter `tt = (2 - 9/5)/(1/5 - 9/5) = -1/8` lands outside the
edge. -/
theorem C6_cex :
    (threadRun [[(9:ℚ)/5, 1/5],[0,3]] 1 2 20).bExit = true ∧
    ((threadRun [[(9:ℚ)/5, 1/5],[0,3]] 1 2 20).contourVectors.any
      (fun v => v.x.any (fun q => q < 0))) = true ∧
    (setupFor [[(9:ℚ)/5, 1/5],[0,3]] 2).1.contLevels.getD 1 0 = 2 := by
  decide

/-! ## No-reuse bound (C1) -/

/-- C1 counterexample: on the grid `[[0,0],[0,3]]` (levels `[0, 2]`),
tracing level index 1 (value 2) appends 4 interpolated points, but only 2
edges have a precomputed `[bot, top]` range containing index 1: the two
flat `0`-`0` edges get the empty-range encoding `bot = 1, top = 0`, which
collides with valid level index 1 and makes the limb check fire on edges
the level does not cross. -/
theorem C1_cex :
    (threadRun [[(0:ℚ),0],[0,3]] 1 2 20).bExit = true ∧
    (threadRun [[(0:ℚ),0],[0,3]] 1 2 20).interpKnt = 4 ∧
    rangeCount (setupFor [[(0:ℚ),0],[0,3]] 2).2 1 = 2 := by
  decide

/-! ## Orientation vs shoelace (C7) -/

/-- The closed level-2 (value 4) curve of the peak session: the peak grid
traced at level index 1 then level index 2 (reusing the bounds, as a
session does). -/
def peakClosed : ContourVector :=
  (traceLevels [[(0:ℚ),0,0],[0,10,0],[0,0,0]] 2 [(1,2),(2,4)] 32).contourVectors.getD 4 {}

/-- The closed level-1 (value 2) curve of the pit trace. -/
def pitClosed : ContourVector :=
  (threadRun [[(10:ℚ),10,10],[10,0,10],[10,10,10]] 1 2 32).contourVectors.getD 0 {}

set_option maxHeartbeats 8000000 in
set_option maxRecDepth 100000 in
/-- C7 counterexample: two closed curves whose shoelace signed areas have
the same (negative) sign but whose recorded `finCW` orientations are
opposite, so no sign convention can make `finCW` agree with the shoelace
sign.  The peak grid `[[0,0,0],[0,10,0],[0,0,0]]` (session at levels 1 then
2) closes a loop around the center with `finCW = COUNTERCLOCKWISE`; the pit
grid `[[10,10,10],[10,0,10],[10,10,10]]` at level 1 closes a loop with
`finCW = CLOCKWISE`; both loops have negative shoelace area. -/
theorem C7_cex :
    peakClosed.stCW = some CLOSED ∧
    peakClosed.finCW = some COUNTERCLOCKWISE ∧
    shoelace peakClosed.x peakClosed.y < 0 ∧
    pitClosed.stCW = some CLOSED ∧
    pitClosed.finCW = some CLOCKWISE ∧
    shoelace pitClosed.x pitClosed.y < 0 ∧
    (traceLevels [[(0:ℚ),0,0],[0,10,0],[0,0,0]] 2 [(1,2),(2,4)] 32).bExit = true ∧
    (threadRun [[(10:ℚ),10,10],[10,0,10],[10,10,10]] 1 2 32).bExit = true :=
  ⟨by decide, by decide, by decide, by decide, by decide, by decide, by decide, by decide⟩

/-! ## Step-level structure lemmas -/

/-- `probe` changes only `x2` and `y2`. -/
theorem probe_bounds (cfg : ContourCfg) (s : TCState) : (probe cfg s).1.bounds = s.bounds := by
  unfold probe
  dsimp only
  split <;> rfl

/-- `probe` preserves `contourVectors`. -/
theorem probe_contourVectors (cfg : ContourCfg) (s : TCState) :
    (probe cfg s).1.contourVectors = s.contourVectors := by
  unfold probe
  dsimp only
  split <;> rfl

/-- `probe` preserves `contVec`. -/
theorem probe_contVec (cfg : ContourCfg) (s : TCState) : (probe cfg s).1.contVec = s.contVec := by
  unfold probe
  dsimp only
  split <;> rfl

/-- `probe` preserves `bStart`. -/
theorem probe_bStart (cfg : ContourCfg) (s : TCState) : (probe cfg s).1.bStart = s.bStart := by
  unfold probe
  dsimp only
  split <;> rfl

/-- `probe` preserves `direc`. -/
theorem probe_direc (cfg : ContourCfg) (s : TCState) : (probe cfg s).1.direc = s.direc := by
  unfold probe
  dsimp only
  split <;> rfl

/-- `probe` preserves `dt`. -/
theorem probe_dt (cfg : ContourCfg) (s : TCState) : (probe cfg s).1.dt = s.dt := by
  unfold probe
  dsimp only
  split <;> rfl

/-- `probe` preserves `ccwknt`. -/
theorem probe_ccwknt (cfg : ContourCfg) (s : TCState) : (probe cfg s).1.ccwknt = s.ccwknt := by
  unfold probe
  dsimp only
  split <;> rfl

/-- `probe` preserves `interpKnt`. -/
theorem probe_interpKnt (cfg : ContourCfg) (s : TCState) :
    (probe cfg s).1.interpKnt = s.interpKnt := by
  unfold probe
  dsimp only
  split <;> rfl

/-- The flag returned by `consume` is exactly the limb check. -/
theorem consume_snd (g : List (List ℚ)) (cfg : ContourCfg) (cn : ℤ) (cl : ℚ) (s : TCState) :
    (consume g cfg cn cl s).2 = limbFlag s.bounds (limbSel s) cn := by
  unfold consume
  dsimp only
  by_cases hf : limbFlag s.bounds (limbSel s) cn = true
  · simp [hf]
  · rw [Bool.not_eq_true] at hf
    simp [hf]

/-- When the limb check fails, `consume` only records the selected limb. -/
theorem consume_nofire (g : List (List ℚ)) (cfg : ContourCfg) (cn : ℤ) (cl : ℚ) (s : TCState)
    (h : (consume g cfg cn cl s).2 = false) :
    (consume g cfg cn cl s).1 =
      { s with lmb := (limbSel s).1, ylmb := (limbSel s).2.1, xlmb := (limbSel s).2.2 } := by
  rw [consume_snd] at h
  unfold consume
  dsimp only
  simp [h]

/-- The closed curve built at the `direc === dt` closure: duplicate the
first point, set `stCW = CLOSED`, set `finCW` from the sign of the
accumulated `ccwknt`. -/
def closedOf (cv : ContourVector) (ccwknt : ℤ) : ContourVector :=
  { cv with
    x := cv.x ++ [cv.x.getD 0 0]
    y := cv.y ++ [cv.y.getD 0 0]
    stCW := some CLOSED
    finCW := some (if ccwknt < 0 then COUNTERCLOCKWISE else CLOCKWISE) }

/-- A FOLLOWING-phase iteration whose probe is in range, whose limb check
fails, and whose rotated direction returns to `dt`, finishes the curve as
closed: the closed curve is appended to the output exactly once, `ccwknt`
is reset, and the tracer returns to SCANNING. -/
theorem step_closure_proj (g : List (List ℚ)) (cfg : ContourCfg) (cn : ℤ) (cl : ℚ) (s : TCState)
    (hstart : s.bStart = false)
    (hin : (probe cfg s).2 = true)
    (hflag : limbFlag s.bounds (limbSel (probe cfg s).1) cn = false)
    (hdt : nexd s.direc = s.dt) :
    (step g cfg cn cl s).contourVectors = s.contourVectors ++ [closedOf s.contVec s.ccwknt] ∧
    (step g cfg cn cl s).ccwknt = 0 ∧
    (step g cfg cn cl s).bStart = true := by
  have hcf : (consume g cfg cn cl (probe cfg s).1).2 = false := by
    rw [consume_snd, probe_bounds]
    exact hflag
  have hcs := consume_nofire g cfg cn cl (probe cfg s).1 hcf
  unfold step
  dsimp only
  rw [hin, if_pos rfl, hcf, hcs]
  unfold branch
  dsimp only
  simp only [probe_bStart, hstart, probe_direc, probe_dt, probe_contourVectors, probe_contVec,
    probe_ccwknt, Bool.not_false, eq_self_iff_true, if_true, Bool.false_eq_true, if_false, hdt,
    closedOf]
  exact ⟨trivial, trivial, trivial⟩

/-- Duplicating the (default-read) first element at the end of a list makes
its last element equal to its first. -/
theorem dup_head_last (l : List ℚ) :
    (l ++ [l.getD 0 0]).getLast? = (l ++ [l.getD 0 0]).head? := by
  cases l with
  | nil => rfl
  | cons a l => rw [List.getLast?_concat]; rfl

/-- C3: whenever the tracer, while following a curve, rotates `direc`
through `nexd` back to `dt` without finding a continuation, it closes the
curve: exactly one curve is pushed, its last stored point equals its first
point (the first point is duplicated as the final point), its `finCW` is
COUNTERCLOCKWISE when the accumulated `ccwknt < 0` and CLOCKWISE otherwise,
`ccwknt` is reset to 0, and the tracer returns to scanning. -/
theorem C3_closure (g : List (List ℚ)) (cfg : ContourCfg) (cn : ℤ) (cl : ℚ) (s : TCState)
    (hstart : s.bStart = false)
    (hin : (probe cfg s).2 = true)
    (hflag : limbFlag s.bounds (limbSel (probe cfg s).1) cn = false)
    (hdt : nexd s.direc = s.dt) :
    (step g cfg cn cl s).contourVectors = s.contourVectors ++ [closedOf s.contVec s.ccwknt] ∧
    (closedOf s.contVec s.ccwknt).x.getLast? = (closedOf s.contVec s.ccwknt).x.head? ∧
    (closedOf s.contVec s.ccwknt).y.getLast? = (closedOf s.contVec s.ccwknt).y.head? ∧
    (closedOf s.contVec s.ccwknt).finCW =
      some (if s.ccwknt < 0 then COUNTERCLOCKWISE else CLOCKWISE) ∧
    (closedOf s.contVec s.ccwknt).stCW = some CLOSED ∧
    (step g cfg cn cl s).ccwknt = 0 ∧
    (step g cfg cn cl s).bStart = true := by
  obtain ⟨h1, h2, h3⟩ := step_closure_proj g cfg cn cl s hstart hin hflag hdt
  exact ⟨h1, dup_head_last _, dup_head_last _, rfl, rfl, h2, h3⟩

/-- A concrete closure state for the C3 witness: a FOLLOWING state on a
2-by-2 session at level 1 whose next probe is in range with no crossing,
with `nexd 0 = 1 = dt`. -/
def c3cfg : ContourCfg :=
  { nf := 2, mf := 2, delta := 3/10000, contLevels := [0, 2] }

/-- Bounds for the C3 witness (all sentinels: no crossing anywhere). -/
def c3bounds : List (List ContourLimit) := [[{}, {}], [{}, {}]]

/-- The C3 witness state. -/
def c3state : TCState :=
  { bounds := c3bounds
    contourVectors := []
    contVec := { x := [1/2], y := [0], stCW := some 1, stEdge := some 3 }
    bStart := false
    direc := 0
    dt := 1
    x1 := 0
    y1 := 0
    vecTop := 1
    ccwknt := 1 }

/-- Witness for C3 at the concrete state `c3state`. -/
theorem C3_closure_witness :
    (c3state.bStart = false ∧ (probe c3cfg c3state).2 = true ∧
     limbFlag c3state.bounds (limbSel (probe c3cfg c3state).1) 1 = false ∧
     nexd c3state.direc = c3state.dt) ∧
    ((step [[0,0],[0,3]] c3cfg 1 2 c3state).contourVectors
        = c3state.contourVectors ++ [closedOf c3state.contVec c3state.ccwknt] ∧
     (closedOf c3state.contVec c3state.ccwknt).x.getLast?
        = (closedOf c3state.contVec c3state.ccwknt).x.head? ∧
     (closedOf c3state.contVec c3state.ccwknt).y.getLast?
        = (closedOf c3state.contVec c3state.ccwknt).y.head? ∧
     (closedOf c3state.contVec c3state.ccwknt).finCW
        = some (if c3state.ccwknt < 0 then COUNTERCLOCKWISE else CLOCKWISE) ∧
     (closedOf c3state.contVec c3state.ccwknt).stCW = some CLOSED ∧
     (step [[0,0],[0,3]] c3cfg 1 2 c3state).ccwknt = 0 ∧
     (step [[0,0],[0,3]] c3cfg 1 2 c3state).bStart = true) :=
  ⟨⟨by decide, by decide, by decide, by decide⟩,
   C3_closure [[0,0],[0,3]] c3cfg 1 2 c3state (by decide) (by decide) (by decide) (by decide)⟩

/-- C7 amended: the finish orientation recorded on a closed curve is the
sign of the accumulated `ccwknt` at closure - COUNTERCLOCKWISE exactly
when `ccwknt < 0` - not a function of the geometry of the traced point
sequence.  (Note that `ccwknt` is reset only on closure, never on the
open-finish path, so its value at a closure may include carryover from
earlier open curves of the same call.) -/
theorem C7_closure_orientation (g : List (List ℚ)) (cfg : ContourCfg) (cn : ℤ) (cl : ℚ)
    (s : TCState)
    (hstart : s.bStart = false)
    (hin : (probe cfg s).2 = true)
    (hflag : limbFlag s.bounds (limbSel (probe cfg s).1) cn = false)
    (hdt : nexd s.direc = s.dt) :
    ((step g cfg cn cl s).contourVectors.getLast?).map ContourVector.finCW
      = some (some (if s.ccwknt < 0 then COUNTERCLOCKWISE else CLOCKWISE)) := by
  obtain ⟨h1, -, -⟩ := step_closure_proj g cfg cn cl s hstart hin hflag hdt
  rw [h1, List.getLast?_concat]
  rfl

/-- Witness for the amended C7 at the concrete state `c3state` (with a
positive `ccwknt`, so the recorded orientation is CLOCKWISE). -/
theorem C7_closure_orientation_witness :
    (c3state.bStart = false ∧ (probe c3cfg c3state).2 = true ∧
     limbFlag c3state.bounds (limbSel (probe c3cfg c3state).1) 1 = false ∧
     nexd c3state.direc = c3state.dt) ∧
    ((step [[0,0],[0,3]] c3cfg 1 2 c3state).contourVectors.getLast?).map ContourVector.finCW
      = some (some (if c3state.ccwknt < 0 then COUNTERCLOCKWISE else CLOCKWISE)) :=
  ⟨⟨by decide, by decide, by decide, by decide⟩,
   C7_closure_orientation [[0,0],[0,3]] c3cfg 1 2 c3state (by decide) (by decide) (by decide)
     (by decide)⟩

/-! ## The consumed point (C6 amended) -/

/-- When the limb check fires, `consume` appends exactly the interpolated
point `((x2-x1)*tt + x1, (y2-y1)*tt + y1)` to the active curve. -/
theorem consume_fire_point (g : List (List ℚ)) (cfg : ContourCfg) (cn : ℤ) (cl : ℚ) (s : TCState)
    (hf : (consume g cfg cn cl s).2 = true) :
    (consume g cfg cn cl s).1.contVec.x =
      s.contVec.x ++ [((s.x2 : ℚ) - (s.x1 : ℚ)) *
        interpT (gridAt g s.y1 s.x1) (gridAt g s.y2 s.x2) cl cfg.delta + (s.x1 : ℚ)] ∧
    (consume g cfg cn cl s).1.contVec.y =
      s.contVec.y ++ [((s.y2 : ℚ) - (s.y1 : ℚ)) *
        interpT (gridAt g s.y1 s.x1) (gridAt g s.y2 s.x2) cl cfg.delta + (s.y1 : ℚ)] := by
  rw [consume_snd] at hf
  unfold consume
  dsimp only
  simp only [hf, eq_self_iff_true, if_true]
  constructor <;> (split <;> rfl)

/-- A product of two factors in `(-1, 1)` and `[-1, 1]` stays in `(-1, 1)`. -/
theorem mul_mem_ball (t d : ℚ) (h1 : -1 < t) (h2 : t < 1) (h3 : -1 ≤ d) (h4 : d ≤ 1) :
    -1 < d * t ∧ d * t < 1 := by
  constructor <;> rcases lt_trichotomy d 0 with hd | hd | hd <;> nlinarith

/-- C6 amended: provided the session scale `delta = (maxZ - minZ)/10000`
lies in `(0, 1)`, a point appended by a limb-check hit whose cursor
`(x1,y1)` and probed neighbour `(x2,y2)` are both in grid range and
adjacent lies in the open expanded rectangle `(-1, nf) x (-1, mf)` - one
unit beyond the claimed tight bound, which the counterexample `C6_cex`
shows can indeed be exceeded.  The `delta < 1` hypothesis is essential:
with `delta >= 1` (value range of 10000 or more) the clamp value
`1 - delta` leaves `(-1, 1)` and a spurious hit can land on or beyond even
the expanded rectangle's boundary. -/
theorem C6_point_in_expanded_box (g : List (List ℚ)) (cfg : ContourCfg) (cn : ℤ) (cl : ℚ)
    (s : TCState)
    (hf : (consume g cfg cn cl s).2 = true)
    (hx1 : 0 ≤ s.x1) (hx1n : s.x1 < cfg.nf) (hx2 : 0 ≤ s.x2) (hx2n : s.x2 < cfg.nf)
    (hy1 : 0 ≤ s.y1) (hy1m : s.y1 < cfg.mf) (hy2 : 0 ≤ s.y2) (hy2m : s.y2 < cfg.mf)
    (hax : s.x1 - 1 ≤ s.x2 ∧ s.x2 ≤ s.x1 + 1) (hay : s.y1 - 1 ≤ s.y2 ∧ s.y2 ≤ s.y1 + 1)
    (hd0 : 0 < cfg.delta) (hd1 : cfg.delta < 1) :
    (consume g cfg cn cl s).1.contVec.x.getLast? =
      some (((s.x2 : ℚ) - (s.x1 : ℚ)) *
        interpT (gridAt g s.y1 s.x1) (gridAt g s.y2 s.x2) cl cfg.delta + (s.x1 : ℚ)) ∧
    (-1 : ℚ) < ((s.x2 : ℚ) - (s.x1 : ℚ)) *
        interpT (gridAt g s.y1 s.x1) (gridAt g s.y2 s.x2) cl cfg.delta + (s.x1 : ℚ) ∧
    ((s.x2 : ℚ) - (s.x1 : ℚ)) *
        interpT (gridAt g s.y1 s.x1) (gridAt g s.y2 s.x2) cl cfg.delta + (s.x1 : ℚ)
      < (cfg.nf : ℚ) ∧
    (consume g cfg cn cl s).1.contVec.y.getLast? =
      some (((s.y2 : ℚ) - (s.y1 : ℚ)) *
        interpT (gridAt g s.y1 s.x1) (gridAt g s.y2 s.x2) cl cfg.delta + (s.y1 : ℚ)) ∧
    (-1 : ℚ) < ((s.y2 : ℚ) - (s.y1 : ℚ)) *
        interpT (gridAt g s.y1 s.x1) (gridAt g s.y2 s.x2) cl cfg.delta + (s.y1 : ℚ) ∧
    ((s.y2 : ℚ) - (s.y1 : ℚ)) *
        interpT (gridAt g s.y1 s.x1) (gridAt g s.y2 s.x2) cl cfg.delta + (s.y1 : ℚ)
      < (cfg.mf : ℚ) := by
  obtain ⟨hpx, hpy⟩ := consume_fire_point g cfg cn cl s hf
  have htt : -1 < interpT (gridAt g s.y1 s.x1) (gridAt g s.y2 s.x2) cl cfg.delta ∧
      interpT (gridAt g s.y1 s.x1) (gridAt g s.y2 s.x2) cl cfg.delta < 1 :=
    clamp_bounds cfg.delta hd0 hd1 _
  have hdx1 : (-1 : ℚ) ≤ (s.x2 : ℚ) - (s.x1 : ℚ) := by
    have h1 := hax.1
    have : ((s.x1 - 1 : ℤ) : ℚ) ≤ ((s.x2 : ℤ) : ℚ) := by exact_mod_cast h1
    push_cast at this
    linarith
  have hdx2 : (s.x2 : ℚ) - (s.x1 : ℚ) ≤ 1 := by
    have h2 := hax.2
    have : ((s.x2 : ℤ) : ℚ) ≤ ((s.x1 + 1 : ℤ) : ℚ) := by exact_mod_cast h2
    push_cast at this
    linarith
  have hdy1 : (-1 : ℚ) ≤ (s.y2 : ℚ) - (s.y1 : ℚ) := by
    have h1 := hay.1
    have : ((s.y1 - 1 : ℤ) : ℚ) ≤ ((s.y2 : ℤ) : ℚ) := by exact_mod_cast h1
    push_cast at this
    linarith
  have hdy2 : (s.y2 : ℚ) - (s.y1 : ℚ) ≤ 1 := by
    have h2 := hay.2
    have : ((s.y2 : ℤ) : ℚ) ≤ ((s.y1 + 1 : ℤ) : ℚ) := by exact_mod_cast h2
    push_cast at this
    linarith
  have hbx := mul_mem_ball _ _ htt.1 htt.2 hdx1 hdx2
  have hby := mul_mem_ball _ _ htt.1 htt.2 hdy1 hdy2
  have hx1q : (0 : ℚ) ≤ (s.x1 : ℚ) := by exact_mod_cast hx1
  have hx1nq : (s.x1 : ℚ) + 1 ≤ (cfg.nf : ℚ) := by
    have : ((s.x1 + 1 : ℤ) : ℚ) ≤ ((cfg.nf : ℤ) : ℚ) := by exact_mod_cast hx1n
    push_cast at this
    linarith
  have hy1q : (0 : ℚ) ≤ (s.y1 : ℚ) := by exact_mod_cast hy1
  have hy1mq : (s.y1 : ℚ) + 1 ≤ (cfg.mf : ℚ) := by
    have : ((s.y1 + 1 : ℤ) : ℚ) ≤ ((cfg.mf : ℤ) : ℚ) := by exact_mod_cast hy1m
    push_cast at this
    linarith
  refine ⟨by rw [hpx, List.getLast?_concat], by linarith [hbx.1], by linarith [hbx.2],
    by rw [hpy, List.getLast?_concat], by linarith [hby.1], by linarith [hby.2]⟩

/-- Witness for the amended C6: the spurious hit of `C6_cex` itself, at the
very first probe of the trace, with both endpoints in range. -/
theorem C6_point_in_expanded_box_witness :
    ((consume [[(9:ℚ)/5, 1/5],[0,3]] (setupFor [[(9:ℚ)/5, 1/5],[0,3]] 2).1 1 2
        { bounds := (setupFor [[(9:ℚ)/5, 1/5],[0,3]] 2).2, x2 := 1 }).2 = true ∧
     (0:ℚ) < (setupFor [[(9:ℚ)/5, 1/5],[0,3]] 2).1.delta) ∧
    ((-1 : ℚ) < (((1 : ℤ) : ℚ) - ((0 : ℤ) : ℚ)) *
        interpT (gridAt [[(9:ℚ)/5, 1/5],[0,3]] 0 0) (gridAt [[(9:ℚ)/5, 1/5],[0,3]] 0 1) 2
          (setupFor [[(9:ℚ)/5, 1/5],[0,3]] 2).1.delta + ((0 : ℤ) : ℚ)) :=
  ⟨⟨by decide, by decide⟩,
   (C6_point_in_expanded_box [[(9:ℚ)/5, 1/5],[0,3]] (setupFor [[(9:ℚ)/5, 1/5],[0,3]] 2).1 1 2
      { bounds := (setupFor [[(9:ℚ)/5, 1/5],[0,3]] 2).2, x2 := 1 }
      (by decide) (by decide) (by decide) (by decide) (by decide) (by decide) (by decide)
      (by decide) (by decide) ⟨by decide, by decide⟩ ⟨by decide, by decide⟩
      (by decide) (by decide)).2.1⟩

/-! ## Bookkeeping lemmas for the bounds table -/

/-- `getD` after `set` at the same (valid) index. -/
theorem getD_set_self {α : Type} (l : List α) (i : ℕ) (a d : α) (h : i < l.length) :
    (l.set i a).getD i d = a := by
  rw [List.getD_eq_getElem?_getD, List.getElem?_set_self (by simpa using h)]
  rfl

/-- `getD` after `set` at a different index. -/
theorem getD_set_other {α : Type} (l : List α) {i j : ℕ} (a d : α) (h : i ≠ j) :
    (l.set i a).getD j d = l.getD j d := by
  rw [List.getD_eq_getElem?_getD, List.getElem?_set_ne h, ← List.getD_eq_getElem?_getD]

/-- `getD` out of range is the default. -/
theorem getD_of_le {α : Type} (l : List α) {i : ℕ} (d : α) (h : l.length ≤ i) :
    l.getD i d = d := by
  rw [List.getD_eq_getElem?_getD, List.getElem?_eq_none h]
  rfl

/-- Replacing one element changes a mapped sum by the difference of images. -/
theorem sum_map_set {α : Type} (f : α → ℕ) (l : List α) (i : ℕ) (a d : α) (h : i < l.length) :
    ((l.set i a).map f).sum + f (l.getD i d) = (l.map f).sum + f a := by
  induction l generalizing i with
  | nil => simp at h
  | cons hd tl ih =>
    cases i with
    | zero =>
      simp only [List.set, List.map_cons, List.sum_cons, List.getD_cons_zero]
      omega
    | succ n =>
      simp only [List.set, List.map_cons, List.sum_cons, List.getD_cons_succ]
      have := ih n (by simpa using h)
      omega

/-- How `matchCount` changes under a valid `boundsSet`. -/
theorem matchCount_boundsSet (b : List (List ContourLimit)) (y x : ℤ) (cl : ContourLimit)
    (cn : ℤ) (hy : 0 ≤ y) (hx : 0 ≤ x) (hyl : y.toNat < b.length)
    (hxl : x.toNat < (b.getD y.toNat []).length) :
    matchCount (boundsSet b y x cl) cn + limbMatches cn (boundsAt b y x) =
      matchCount b cn + limbMatches cn cl := by
  unfold boundsSet boundsAt matchCount
  rw [if_pos ⟨hy, hx⟩, if_pos ⟨hy, hx⟩]
  have h1 := sum_map_set (fun row => (row.map (limbMatches cn)).sum) b y.toNat
    ((b.getD y.toNat []).set x.toNat cl) [] hyl
  have h2 := sum_map_set (limbMatches cn) (b.getD y.toNat []) x.toNat cl
    ({} : ContourLimit) hxl
  dsimp only at h1 h2
  omega

/-- An invalid index reads the default record. -/
theorem boundsAt_default (b : List (List ContourLimit)) (y x : ℤ)
    (h : ¬(0 ≤ y ∧ 0 ≤ x ∧ y.toNat < b.length ∧
        x.toNat < (b.getD y.toNat []).length)) :
    boundsAt b y x = {} := by
  unfold boundsAt
  by_cases h1 : 0 ≤ y ∧ 0 ≤ x
  · rw [if_pos h1]
    rcases Nat.lt_or_ge y.toNat b.length with hyl | hyl
    · rcases Nat.lt_or_ge x.toNat (b.getD y.toNat []).length with hxl | hxl
      · exact absurd ⟨h1.1, h1.2, hyl, hxl⟩ h
      · exact getD_of_le _ _ hxl
    · rw [getD_of_le b [] hyl]
      exact getD_of_le _ _ (Nat.zero_le _)
  · rw [if_neg h1]

/-- `botOf` of the default (all-sentinel) record. -/
theorem botOf_default (lmb : ℕ) : botOf ({} : ContourLimit) lmb = MAX_LOOP_LIMIT := by
  unfold botOf
  split <;> rfl

/-- The selected limb code is 0 or 1. -/
theorem limbSel_fst (s : TCState) : (limbSel s).1 = 0 ∨ (limbSel s).1 = 1 := by
  unfold limbSel
  split <;> simp

/-- The limb check is the `botOf` comparison. -/
theorem limbFlag_eq_botOf (b : List (List ContourLimit)) (ls : ℕ × ℤ × ℤ) (cn : ℤ) :
    limbFlag b ls cn = decide (botOf (boundsAt b ls.2.1 ls.2.2) ls.1 = cn) := by
  unfold limbFlag botOf
  by_cases h : ls.1 = 1 <;> simp [h]

/-- Consuming a limb whose counter equals `cn` removes exactly one match
(for `cn` distinct from the sentinel). -/
theorem limbMatches_markUsed (cl : ContourLimit) (lmb : ℕ) (cn : ℤ)
    (hcn : cn ≠ MAX_LOOP_LIMIT) (hl : lmb = 0 ∨ lmb = 1) (hb : botOf cl lmb = cn) :
    limbMatches cn (markUsed cl lmb) + 1 = limbMatches cn cl := by
  unfold MAX_LOOP_LIMIT at hcn
  rcases hl with h | h <;> subst h <;>
    simp only [botOf, markUsed, limbMatches, MAX_LOOP_LIMIT] at hb ⊢ <;>
    norm_num at hb ⊢ <;>
    split_ifs at * <;> omega

/-- `markUsed` leaves the other limb's counter alone. -/
theorem botOf_markUsed_other (cl : ContourLimit) (lmb lb : ℕ)
    (hlb : lb = 0 ∨ lb = 1) (hlmb : lmb = 0 ∨ lmb = 1) (hne : lb ≠ lmb) :
    botOf (markUsed cl lmb) lb = botOf cl lb := by
  rcases hlb with h | h <;> rcases hlmb with h2 | h2 <;> subst h <;> subst h2 <;>
    first
      | exact absurd rfl hne
      | simp [markUsed, botOf]

/-- When the limb check fires, `consume` marks the selected limb used and
counts one interpolated point. -/
theorem consume_fire_bounds (g : List (List ℚ)) (cfg : ContourCfg) (cn : ℤ) (cl : ℚ)
    (s : TCState) (hf : (consume g cfg cn cl s).2 = true) :
    (consume g cfg cn cl s).1.bounds =
      boundsSet s.bounds (limbSel s).2.1 (limbSel s).2.2
        (markUsed (boundsAt s.bounds (limbSel s).2.1 (limbSel s).2.2) (limbSel s).1) ∧
    (consume g cfg cn cl s).1.interpKnt = s.interpKnt + 1 := by
  rw [consume_snd] at hf
  unfold consume
  dsimp only
  simp only [hf, eq_self_iff_true, if_true]
  constructor <;> trivial

/-- One `consume` never increases `interpKnt + matchCount`. -/
theorem consume_measure (g : List (List ℚ)) (cfg : ContourCfg) (cn : ℤ) (cl : ℚ)
    (s : TCState) (hcn : cn ≠ MAX_LOOP_LIMIT) :
    (consume g cfg cn cl s).1.interpKnt + matchCount (consume g cfg cn cl s).1.bounds cn
      ≤ s.interpKnt + matchCount s.bounds cn := by
  cases hf : (consume g cfg cn cl s).2 with
  | false =>
    rw [consume_nofire g cfg cn cl s hf]
  | true =>
    have hfb := hf
    rw [consume_snd] at hfb
    have hbots : botOf (boundsAt s.bounds (limbSel s).2.1 (limbSel s).2.2) (limbSel s).1 = cn := by
      rw [limbFlag_eq_botOf] at hfb
      exact of_decide_eq_true hfb
    obtain ⟨hb, hk⟩ := consume_fire_bounds g cfg cn cl s hf
    rw [hb, hk]
    by_cases hv : 0 ≤ (limbSel s).2.1 ∧ 0 ≤ (limbSel s).2.2 ∧
        ((limbSel s).2.1).toNat < s.bounds.length ∧
        ((limbSel s).2.2).toNat < (s.bounds.getD ((limbSel s).2.1).toNat []).length
    · obtain ⟨hv1, hv2, hv3, hv4⟩ := hv
      have hmc := matchCount_boundsSet s.bounds (limbSel s).2.1 (limbSel s).2.2
        (markUsed (boundsAt s.bounds (limbSel s).2.1 (limbSel s).2.2) (limbSel s).1) cn
        hv1 hv2 hv3 hv4
      have hlm := limbMatches_markUsed (boundsAt s.bounds (limbSel s).2.1 (limbSel s).2.2)
        (limbSel s).1 cn hcn (limbSel_fst s) hbots
      omega
    · rw [boundsAt_default s.bounds _ _ hv, botOf_default] at hbots
      exact absurd hbots.symm hcn

/-- `branch` never touches the bounds table. -/
theorem branch_bounds (cfg : ContourCfg) (s : TCState) (bir bc : Bool) :
    (branch cfg s bir bc).bounds = s.bounds := by
  unfold branch
  dsimp only
  repeat' split
  all_goals rfl

/-- `branch` never touches the interpolated-point counter. -/
theorem branch_interpKnt (cfg : ContourCfg) (s : TCState) (bir bc : Bool) :
    (branch cfg s bir bc).interpKnt = s.interpKnt := by
  unfold branch
  dsimp only
  repeat' split
  all_goals rfl

/-- One whole loop iteration never increases `interpKnt + matchCount`. -/
theorem step_measure (g : List (List ℚ)) (cfg : ContourCfg) (cn : ℤ) (cl : ℚ)
    (s : TCState) (hcn : cn ≠ MAX_LOOP_LIMIT) :
    (step g cfg cn cl s).interpKnt + matchCount (step g cfg cn cl s).bounds cn
      ≤ s.interpKnt + matchCount s.bounds cn := by
  unfold step
  dsimp only
  cases hp : (probe cfg s).2 with
  | true =>
    simp only [hp, eq_self_iff_true, if_true]
    rw [branch_interpKnt, branch_bounds]
    have h := consume_measure g cfg cn cl (probe cfg s).1 hcn
    rw [probe_interpKnt, probe_bounds] at h
    exact h
  | false =>
    simp only [hp, Bool.false_eq_true, if_false]
    rw [branch_interpKnt, branch_bounds, probe_interpKnt, probe_bounds]

/-- The whole run never increases `interpKnt + matchCount`. -/
theorem runSteps_measure (g : List (List ℚ)) (cfg : ContourCfg) (cn : ℤ) (cl : ℚ)
    (hcn : cn ≠ MAX_LOOP_LIMIT) : ∀ (n : ℕ) (s : TCState),
    (runSteps g cfg cn cl n s).interpKnt + matchCount (runSteps g cfg cn cl n s).bounds cn
      ≤ s.interpKnt + matchCount s.bounds cn := by
  intro n
  induction n with
  | zero => intro s; exact le_of_eq rfl
  | succ n ih =>
    intro s
    cases hb : s.bExit with
    | true =>
      simp only [runSteps, hb, if_true]
      exact le_refl _
    | false =>
      simp only [runSteps, hb, Bool.false_eq_true, if_false]
      exact le_trans (ih (step g cfg cn cl s)) (step_measure g cfg cn cl s hcn)

/-- C1 amended: for a level index distinct from the sentinel 255, the total
number of interpolated points appended by a `threadContour` run is bounded
by the number of edge counters equal to `contourNum` when the run starts -
each consumption retires one matching counter, so no edge contributes more
than one point per level.  (The bound claimed against the precomputed
crossing ranges fails: see `C1_cex`.) -/
theorem C1_no_reuse_bound (g : List (List ℚ)) (cfg : ContourCfg) (cn : ℤ) (cl : ℚ)
    (B : List (List ContourLimit)) (n : ℕ) (hcn : cn ≠ MAX_LOOP_LIMIT) :
    (runSteps g cfg cn cl n (initState cfg B)).interpKnt ≤ matchCount B cn := by
  have h := runSteps_measure g cfg cn cl hcn n (initState cfg B)
  have h2 : (initState cfg B).interpKnt = 0 := rfl
  have h3 : (initState cfg B).bounds = B := rfl
  rw [h2, h3] at h
  omega

/-- Witness for the amended C1 on the `C1_cex` run (4 points, 4 matching
counters at the start). -/
theorem C1_no_reuse_bound_witness :
    ((1 : ℤ) ≠ MAX_LOOP_LIMIT) ∧
    (runSteps [[(0:ℚ),0],[0,3]] (setupFor [[(0:ℚ),0],[0,3]] 2).1 1 2 20
        (initState (setupFor [[(0:ℚ),0],[0,3]] 2).1 (setupFor [[(0:ℚ),0],[0,3]] 2).2)).interpKnt
      ≤ matchCount (setupFor [[(0:ℚ),0],[0,3]] 2).2 1 :=
  ⟨by decide,
   C1_no_reuse_bound [[(0:ℚ),0],[0,3]] (setupFor [[(0:ℚ),0],[0,3]] 2).1 1 2
     (setupFor [[(0:ℚ),0],[0,3]] 2).2 20 (by decide)⟩

/-! ## Sentinel absorption (C10) -/

/-- A `boundsSet` write either leaves a read unchanged or - when it targets
exactly the read position - returns the written record. -/
theorem boundsAt_boundsSet_cases (b : List (List ContourLimit)) (yp xp : ℤ)
    (cl : ContourLimit) (y x : ℤ) :
    boundsAt (boundsSet b yp xp cl) y x = boundsAt b y x ∨
      (boundsAt (boundsSet b yp xp cl) y x = cl ∧ y = yp ∧ x = xp) := by
  unfold boundsSet
  by_cases hset : 0 ≤ yp ∧ 0 ≤ xp
  case neg =>
    rw [if_neg hset]
    left
    rfl
  case pos =>
  rw [if_pos hset]
  unfold boundsAt
  by_cases hat : 0 ≤ y ∧ 0 ≤ x
  case neg =>
    rw [if_neg hat, if_neg hat]
    left
    rfl
  case pos =>
  rw [if_pos hat, if_pos hat]
  by_cases hyy : yp.toNat = y.toNat
  case neg =>
    left
    rw [getD_set_other b _ _ hyy]
  case pos =>
  have hy : y = yp := by omega
  by_cases hrow : yp.toNat < b.length
  case neg =>
    left
    rw [List.set_eq_of_length_le (by omega)]
  case pos =>
  rw [← hyy, getD_set_self b yp.toNat _ _ hrow]
  by_cases hxx : xp.toNat = x.toNat
  case neg =>
    left
    rw [getD_set_other _ _ _ hxx, hyy]
  case pos =>
  have hx : x = xp := by omega
  by_cases hcol : xp.toNat < (b.getD yp.toNat []).length
  case neg =>
    left
    rw [List.set_eq_of_length_le (by omega), hyy]
  case pos =>
  right
  rw [← hxx, getD_set_self _ xp.toNat _ _ hcol]
  exact ⟨rfl, hy, hx⟩

/-- One iteration preserves an exhausted (sentinel-valued) limb counter,
for a level index distinct from the sentinel. -/
theorem step_sentinel (g : List (List ℚ)) (cfg : ContourCfg) (cn : ℤ) (cl : ℚ)
    (s : TCState) (y x : ℤ) (lb : ℕ)
    (hcn : cn ≠ MAX_LOOP_LIMIT) (hlb : lb = 0 ∨ lb = 1)
    (h : botOf (boundsAt s.bounds y x) lb = MAX_LOOP_LIMIT) :
    botOf (boundsAt (step g cfg cn cl s).bounds y x) lb = MAX_LOOP_LIMIT := by
  unfold step
  dsimp only
  cases hp : (probe cfg s).2 with
  | false =>
    simp only [Bool.false_eq_true, if_false]
    rw [branch_bounds, probe_bounds]
    exact h
  | true =>
    simp only [eq_self_iff_true, if_true]
    rw [branch_bounds]
    cases hcfire : (consume g cfg cn cl (probe cfg s).1).2 with
    | false =>
      rw [consume_nofire _ _ _ _ _ hcfire]
      show botOf (boundsAt (probe cfg s).1.bounds y x) lb = MAX_LOOP_LIMIT
      rw [probe_bounds]
      exact h
    | true =>
      obtain ⟨hb, -⟩ := consume_fire_bounds _ _ _ _ _ hcfire
      rw [hb, probe_bounds]
      have hfb := hcfire
      rw [consume_snd, limbFlag_eq_botOf, probe_bounds] at hfb
      have hbots := of_decide_eq_true hfb
      rcases boundsAt_boundsSet_cases s.bounds (limbSel (probe cfg s).1).2.1
        (limbSel (probe cfg s).1).2.2
        (markUsed (boundsAt s.bounds (limbSel (probe cfg s).1).2.1
          (limbSel (probe cfg s).1).2.2) (limbSel (probe cfg s).1).1) y x with
        hcase | ⟨hcase, hyy, hxx⟩
      · rw [hcase]
        exact h
      · rw [hcase]
        rw [hyy, hxx] at h
        have hne : lb ≠ (limbSel (probe cfg s).1).1 := by
          intro he
          rw [← he] at hbots
          rw [h] at hbots
          exact hcn hbots.symm
        rw [botOf_markUsed_other _ _ _ hlb (limbSel_fst _) hne]
        exact h

/-- C10: once an edge's consumption counter (`bot0` for limb 0, `bot1` for
limb 1) holds the sentinel `MAX_LOOP_LIMIT = 255`, and the traced level
index is distinct from 255, the counter is never modified again during the
trace and the limb check never again reports a crossing on that edge.  (The
hypothesis `cn ≠ 255` is essential: the sentinel is an ordinary comparable
integer, so with 256 or more levels the exhaustion invariant breaks and
the trace at level index 255 can cycle forever.) -/
theorem C10_sentinel_absorbing (g : List (List ℚ)) (cfg : ContourCfg) (cn : ℤ) (cl : ℚ)
    (s : TCState) (y x : ℤ) (lb : ℕ) (n : ℕ)
    (hcn : cn ≠ MAX_LOOP_LIMIT) (hlb : lb = 0 ∨ lb = 1)
    (h : botOf (boundsAt s.bounds y x) lb = MAX_LOOP_LIMIT) :
    botOf (boundsAt (runSteps g cfg cn cl n s).bounds y x) lb = MAX_LOOP_LIMIT ∧
    limbFlag (runSteps g cfg cn cl n s).bounds (lb, y, x) cn = false := by
  have main : ∀ (m : ℕ) (t : TCState), botOf (boundsAt t.bounds y x) lb = MAX_LOOP_LIMIT →
      botOf (boundsAt (runSteps g cfg cn cl m t).bounds y x) lb = MAX_LOOP_LIMIT := by
    intro m
    induction m with
    | zero => intro t ht; exact ht
    | succ m ih =>
      intro t ht
      cases hb : t.bExit with
      | true =>
        simp only [runSteps, hb, if_true]
        exact ht
      | false =>
        simp only [runSteps, hb, Bool.false_eq_true, if_false]
        exact ih (step g cfg cn cl t) (step_sentinel g cfg cn cl t y x lb hcn hlb ht)
  have h1 := main n s h
  refine ⟨h1, ?_⟩
  rw [limbFlag_eq_botOf]
  have : botOf (boundsAt (runSteps g cfg cn cl n s).bounds (lb, y, x).2.1 (lb, y, x).2.2)
      (lb, y, x).1 = MAX_LOOP_LIMIT := h1
  rw [this]
  simp only [decide_eq_false_iff_not]
  intro he
  exact hcn he.symm

/-- Witness for C10: on the `C1_cex` session's bounds table, the
never-initialized upper-right record starts at the sentinel and stays there
through a 20-step run at level index 1. -/
theorem C10_sentinel_absorbing_witness :
    ((1 : ℤ) ≠ MAX_LOOP_LIMIT ∧ ((0 : ℕ) = 0 ∨ (0 : ℕ) = 1) ∧
     botOf (boundsAt (setupFor [[(0:ℚ),0],[0,3]] 2).2 1 1) 0 = MAX_LOOP_LIMIT) ∧
    (botOf (boundsAt (runSteps [[(0:ℚ),0],[0,3]] (setupFor [[(0:ℚ),0],[0,3]] 2).1 1 2 20
        (initState (setupFor [[(0:ℚ),0],[0,3]] 2).1 (setupFor [[(0:ℚ),0],[0,3]] 2).2)).bounds
        1 1) 0 = MAX_LOOP_LIMIT ∧
     limbFlag (runSteps [[(0:ℚ),0],[0,3]] (setupFor [[(0:ℚ),0],[0,3]] 2).1 1 2 20
        (initState (setupFor [[(0:ℚ),0],[0,3]] 2).1 (setupFor [[(0:ℚ),0],[0,3]] 2).2)).bounds
        (0, 1, 1) 1 = false) :=
  ⟨⟨by decide, Or.inl rfl, by decide⟩,
   C10_sentinel_absorbing [[(0:ℚ),0],[0,3]] (setupFor [[(0:ℚ),0],[0,3]] 2).1 1 2
     (initState (setupFor [[(0:ℚ),0],[0,3]] 2).1 (setupFor [[(0:ℚ),0],[0,3]] 2).2) 1 1 0 20
     (by decide) (Or.inl rfl) (by decide)⟩

/-! ## Characterization of getTB (C4) -/

/-- `getD` is monotone on a `Pairwise (≤)` list (within range). -/
theorem pairwise_getD_mono (L : List ℚ) (hm : L.Pairwise (· ≤ ·)) (i j : ℕ)
    (hij : i ≤ j) (hj : j < L.length) : L.getD i 0 ≤ L.getD j 0 := by
  rcases Nat.eq_or_lt_of_le hij with he | hlt
  · subst he
    exact le_refl _
  · have hi : i < L.length := lt_trans hlt hj
    rw [List.getD_eq_getElem?_getD, List.getD_eq_getElem?_getD,
      List.getElem?_eq_getElem hi, List.getElem?_eq_getElem hj]
    exact List.pairwise_iff_getElem.mp hm i j hi hj hlt

/-- Full characterization of the fuelled descending scan: it lands on the
largest index (at or below the start) whose level is at most `hi`, when one
exists, and on 0 otherwise. -/
theorem scanTAux_spec (L : List ℚ) (hi : ℚ) :
    ∀ (f : ℕ) (t : ℤ), t.toNat ≤ f → 0 ≤ t →
      0 ≤ scanTAux L hi f t ∧ scanTAux L hi f t ≤ t ∧
      (∀ k : ℤ, scanTAux L hi f t < k → k ≤ t → hi < L.getD k.toNat 0) ∧
      (scanTAux L hi f t = 0 ∨ L.getD (scanTAux L hi f t).toNat 0 ≤ hi) := by
  intro f
  induction f with
  | zero =>
    intro t hf ht
    have ht0 : t = 0 := by omega
    subst ht0
    refine ⟨le_refl 0, le_refl 0, ?_, Or.inl rfl⟩
    intro k hk1 hk2
    exact absurd hk2 (not_le.mpr hk1)
  | succ f ih =>
    intro t hf ht
    simp only [scanTAux]
    by_cases hc : 0 < t ∧ L.getD t.toNat 0 > hi
    · rw [if_pos hc]
      obtain ⟨hc1, hc2⟩ := hc
      obtain ⟨ih1, ih2, ih3, ih4⟩ := ih (t - 1) (by omega) (by omega)
      refine ⟨ih1, by omega, ?_, ih4⟩
      intro k hk1 hk2
      by_cases hkt : k = t
      · subst hkt
        exact hc2
      · exact ih3 k hk1 (by omega)
    · rw [if_neg hc]
      push_neg at hc
      refine ⟨ht, le_refl t, ?_, ?_⟩
      · intro k hk1 hk2
        exact absurd hk2 (not_le.mpr hk1)
      · by_cases h0 : 0 < t
        · exact Or.inr (hc h0)
        · exact Or.inl (by omega)

/-- Full characterization of the fuelled ascending scan: it stops at the
first index at which the level exceeds `lo`, capped one past `t`. -/
theorem scanBAux_spec (L : List ℚ) (lo : ℚ) (t : ℤ) :
    ∀ (f : ℕ) (b : ℤ), (t + 1 - b).toNat ≤ f → 0 ≤ b →
      b ≤ scanBAux L lo t f b ∧
      (b ≤ t + 1 → scanBAux L lo t f b ≤ t + 1) ∧
      (∀ k : ℤ, b ≤ k → k < scanBAux L lo t f b → L.getD k.toNat 0 ≤ lo) ∧
      (scanBAux L lo t f b ≤ t → lo < L.getD (scanBAux L lo t f b).toNat 0) := by
  intro f
  induction f with
  | zero =>
    intro b hf hb
    have hbt : t < b := by omega
    simp only [scanBAux]
    refine ⟨le_refl b, fun h => h, ?_, fun h => absurd h (by omega)⟩
    intro k hk1 hk2
    exact absurd hk2 (not_lt.mpr hk1)
  | succ f ih =>
    intro b hf hb
    simp only [scanBAux]
    by_cases hc : b ≤ t ∧ L.getD b.toNat 0 ≤ lo
    · rw [if_pos hc]
      obtain ⟨hc1, hc2⟩ := hc
      obtain ⟨ih1, ih2, ih3, ih4⟩ := ih (b + 1) (by omega) (by omega)
      refine ⟨by omega, fun _ => ih2 (by omega), ?_, ih4⟩
      intro k hk1 hk2
      by_cases hkb : k = b
      · subst hkb
        exact hc2
      · exact ih3 k (by omega) hk2
    · rw [if_neg hc]
      push_neg at hc
      refine ⟨le_refl b, fun h => h, ?_, hc⟩
      intro k hk1 hk2
      exact absurd hk2 (not_lt.mpr hk1)

/-- The combined characterization of one `getTB` branch, for a sorted level
list whose first level is at most `lo ≤ hi`. -/
theorem scan_pair_spec (L : List ℚ) (hi lo : ℚ) (uplim : ℤ)
    (hL : L ≠ []) (hup : uplim = (L.length : ℤ) - 1)
    (hmono : L.Pairwise (· ≤ ·)) (h0 : L.getD 0 0 ≤ lo) (hlohi : lo ≤ hi) :
    (0 ≤ scanT L hi uplim ∧ scanT L hi uplim ≤ uplim) ∧
    L.getD (scanT L hi uplim).toNat 0 ≤ hi ∧
    (∀ k : ℤ, scanT L hi uplim < k → k ≤ uplim → hi < L.getD k.toNat 0) ∧
    (0 ≤ scanB L lo (scanT L hi uplim) 0 ∧
      scanB L lo (scanT L hi uplim) 0 ≤ scanT L hi uplim + 1) ∧
    (∀ k : ℤ, 0 ≤ k → k < scanB L lo (scanT L hi uplim) 0 → L.getD k.toNat 0 ≤ lo) ∧
    (scanB L lo (scanT L hi uplim) 0 ≤ scanT L hi uplim →
      lo < L.getD (scanB L lo (scanT L hi uplim) 0).toNat 0) ∧
    ((scanT L hi uplim < scanB L lo (scanT L hi uplim) 0) ↔
      ¬∃ k : ℤ, 0 ≤ k ∧ k ≤ uplim ∧ lo < L.getD k.toNat 0 ∧ L.getD k.toNat 0 ≤ hi) := by
  have hlen : 0 < L.length := List.length_pos.mpr hL
  have hupge : 0 ≤ uplim := by omega
  obtain ⟨ht0, ht1, ht2, ht3⟩ :
      0 ≤ scanT L hi uplim ∧ scanT L hi uplim ≤ uplim ∧
      (∀ k : ℤ, scanT L hi uplim < k → k ≤ uplim → hi < L.getD k.toNat 0) ∧
      (scanT L hi uplim = 0 ∨ L.getD (scanT L hi uplim).toNat 0 ≤ hi) :=
    scanTAux_spec L hi uplim.toNat uplim (le_refl _) hupge
  have htv : L.getD (scanT L hi uplim).toNat 0 ≤ hi := by
    rcases ht3 with h | h
    · rw [h]
      exact le_trans h0 hlohi
    · exact h
  obtain ⟨hb0, hb1, hb2, hb3⟩ :
      (0 : ℤ) ≤ scanB L lo (scanT L hi uplim) 0 ∧
      ((0 : ℤ) ≤ scanT L hi uplim + 1 →
        scanB L lo (scanT L hi uplim) 0 ≤ scanT L hi uplim + 1) ∧
      (∀ k : ℤ, 0 ≤ k → k < scanB L lo (scanT L hi uplim) 0 →
        L.getD k.toNat 0 ≤ lo) ∧
      (scanB L lo (scanT L hi uplim) 0 ≤ scanT L hi uplim →
        lo < L.getD (scanB L lo (scanT L hi uplim) 0).toNat 0) :=
    scanBAux_spec L lo (scanT L hi uplim) (scanT L hi uplim + 1 - 0).toNat 0
      (le_refl _) (le_refl 0)
  refine ⟨⟨ht0, ht1⟩, htv, ht2, ⟨hb0, hb1 (by omega)⟩, ?_, hb3, ?_, ?_⟩
  · intro k hk1 hk2
    exact hb2 k hk1 hk2
  · rintro htb ⟨k, hk0, hkup, hklo, hkhi⟩
    have hkt : k ≤ scanT L hi uplim := by
      by_contra hkt
      push_neg at hkt
      exact absurd hkhi (not_le.mpr (ht2 k hkt hkup))
    exact absurd (hb2 k hk0 (by omega)) (not_le.mpr hklo)
  · intro hno
    by_contra htb
    push_neg at htb
    apply hno
    refine ⟨scanB L lo (scanT L hi uplim) 0, hb0, by omega, hb3 htb, ?_⟩
    have hmm : L.getD (scanB L lo (scanT L hi uplim) 0).toNat 0 ≤
        L.getD (scanT L hi uplim).toNat 0 :=
      pairwise_getD_mono L hmono _ _ (by omega) (by omega)
    exact le_trans hmm htv

/-- C4: for a nonempty ascending level list whose first level is at most
both samples, and `uplim` the last index, `getTB(v, u, uplim)` returns `t`
= the largest level index whose value is at most `max u v`, and `b` = the
smallest level index whose value exceeds `min u v`, capped at `t + 1`;
consequently `b > t` holds exactly when no level lies in
`(min u v, max u v]` - i.e. the monotone scans are semantically equivalent
to a binary search over the sorted list. -/
theorem C4_getTB_characterization (L : List ℚ) (u v : ℚ) (uplim : ℤ)
    (hL : L ≠ []) (hup : uplim = (L.length : ℤ) - 1)
    (hmono : L.Pairwise (· ≤ ·))
    (h0u : L.getD 0 0 ≤ u) (h0v : L.getD 0 0 ≤ v) :
    (0 ≤ (getTB L v u uplim).1 ∧ (getTB L v u uplim).1 ≤ uplim) ∧
    L.getD ((getTB L v u uplim).1).toNat 0 ≤ max u v ∧
    (∀ k : ℤ, (getTB L v u uplim).1 < k → k ≤ uplim → max u v < L.getD k.toNat 0) ∧
    (0 ≤ (getTB L v u uplim).2 ∧ (getTB L v u uplim).2 ≤ (getTB L v u uplim).1 + 1) ∧
    (∀ k : ℤ, 0 ≤ k → k < (getTB L v u uplim).2 → L.getD k.toNat 0 ≤ min u v) ∧
    ((getTB L v u uplim).2 ≤ (getTB L v u uplim).1 →
      min u v < L.getD ((getTB L v u uplim).2).toNat 0) ∧
    (((getTB L v u uplim).1 < (getTB L v u uplim).2) ↔
      ¬∃ k : ℤ, 0 ≤ k ∧ k ≤ uplim ∧ min u v < L.getD k.toNat 0 ∧
        L.getD k.toNat 0 ≤ max u v) := by
  unfold getTB
  by_cases hvu : v > u
  · rw [if_pos hvu]
    dsimp only
    rw [max_eq_right (le_of_lt hvu), min_eq_left (le_of_lt hvu)]
    exact scan_pair_spec L v u uplim hL hup hmono h0u (le_of_lt hvu)
  · rw [if_neg hvu]
    dsimp only
    push_neg at hvu
    rw [max_eq_left hvu, min_eq_right hvu]
    exact scan_pair_spec L u v uplim hL hup hmono h0v hvu

/-- Witness for C4 on the level list `[0, 2, 4]` with samples `u = 1`,
`v = 3`: `getTB` returns `t = 1`, `b = 1`. -/
theorem C4_getTB_characterization_witness :
    (([0, 2, 4] : List ℚ) ≠ [] ∧ (2 : ℤ) = (([0, 2, 4] : List ℚ).length : ℤ) - 1 ∧
     ([0, 2, 4] : List ℚ).Pairwise (· ≤ ·) ∧
     ([0, 2, 4] : List ℚ).getD 0 0 ≤ 1 ∧ ([0, 2, 4] : List ℚ).getD 0 0 ≤ 3) ∧
    ((0 ≤ (getTB [0, 2, 4] 3 1 2).1 ∧ (getTB [0, 2, 4] 3 1 2).1 ≤ 2) ∧
     ([0, 2, 4] : List ℚ).getD ((getTB [0, 2, 4] 3 1 2).1).toNat 0 ≤ max 1 3 ∧
     (∀ k : ℤ, (getTB [0, 2, 4] 3 1 2).1 < k → k ≤ 2 →
        max 1 3 < ([0, 2, 4] : List ℚ).getD k.toNat 0) ∧
     (0 ≤ (getTB [0, 2, 4] 3 1 2).2 ∧
        (getTB [0, 2, 4] 3 1 2).2 ≤ (getTB [0, 2, 4] 3 1 2).1 + 1) ∧
     (∀ k : ℤ, 0 ≤ k → k < (getTB [0, 2, 4] 3 1 2).2 →
        ([0, 2, 4] : List ℚ).getD k.toNat 0 ≤ min 1 3) ∧
     ((getTB [0, 2, 4] 3 1 2).2 ≤ (getTB [0, 2, 4] 3 1 2).1 →
        min 1 3 < ([0, 2, 4] : List ℚ).getD ((getTB [0, 2, 4] 3 1 2).2).toNat 0) ∧
     (((getTB [0, 2, 4] 3 1 2).1 < (getTB [0, 2, 4] 3 1 2).2) ↔
        ¬∃ k : ℤ, 0 ≤ k ∧ k ≤ 2 ∧ min 1 3 < ([0, 2, 4] : List ℚ).getD k.toNat 0 ∧
          ([0, 2, 4] : List ℚ).getD k.toNat 0 ≤ max 1 3)) :=
  ⟨⟨by decide, by decide, by decide, by decide, by decide⟩,
   C4_getTB_characterization [0, 2, 4] 1 3 2 (by decide) (by decide) (by decide)
     (by decide) (by decide)⟩

/-! ## Non-termination of the sentinel-colliding trace (C2) -/

/-- A 3x3 grid (values 0 .. 520, interval 2) whose session has 260 contour
levels, so level index 255 (value 510) is a real level while its four
interior edges are flat at 509. -/
def grid255b : List (List ℚ) := [[0, 509, 520], [509, 509, 509], [509, 509, 509]]

/-- The session configuration `setupContours(grid255b)` creates with
interval 2. -/
def cfg255 : ContourCfg := (setupFor grid255b 2).1

/-- The bounds table reached after 31 iterations of the level-255 trace on
`grid255b`.  The four limbs incident to the interior vertex (1,1) - `bot1`
of rows 0 and 1 at column 1 and `bot0` of row 1 at columns 0 and 1 - all
carry the empty-range encoding `bot = 255 = MAX_LOOP_LIMIT`, `top = 254`,
which collides with the traced level index 255. -/
def B255 : List (List ContourLimit) :=
  [[{ top0 := 254, bot0 := 1, top1 := 254, bot1 := 1, CW0 := 1, CW1 := -1 },
    { top0 := 259, bot0 := 256, top1 := 254, bot1 := 255, CW0 := 1, CW1 := 1 },
    { top0 := 255, bot0 := 255, top1 := 259, bot1 := 256, CW0 := 0, CW1 := 1 }],
   [{ top0 := 254, bot0 := 255, top1 := 254, bot1 := 255, CW0 := 1, CW1 := 1 },
    { top0 := 254, bot0 := 255, top1 := 254, bot1 := 255, CW0 := 1, CW1 := 1 },
    { top0 := 255, bot0 := 255, top1 := 254, bot1 := 255, CW0 := 0, CW1 := 1 }],
   [{ top0 := 254, bot0 := 255, top1 := 255, bot1 := 255, CW0 := 1, CW1 := 0 },
    { top0 := 254, bot0 := 255, top1 := 255, bot1 := 255, CW0 := 1, CW1 := 0 },
    { top0 := 255, bot0 := 255, top1 := 255, bot1 := 255, CW0 := 0, CW1 := 0 }]]

/-- The consuming 4-cycle at the interior vertex: the bounds table is
stationary at `B255`, the tracer is FOLLOWING (not scanning, not exited)
and the cursor sits at (1,1) with a valid direction. -/
def cycInv (s : TCState) : Prop :=
  s.bounds = B255 ∧ s.bExit = false ∧ s.bStart = false ∧
  s.x1 = 1 ∧ s.y1 = 1 ∧ s.direc < 4

/-- A firing `consume` leaves the control fields (`bExit`, `bStart`, the
cursor and the direction) untouched. -/
theorem consume_fire_ctrl (g : List (List ℚ)) (cfg : ContourCfg) (cn : ℤ) (cl : ℚ)
    (s : TCState) (hf : (consume g cfg cn cl s).2 = true) :
    (consume g cfg cn cl s).1.bExit = s.bExit ∧
    (consume g cfg cn cl s).1.bStart = s.bStart ∧
    (consume g cfg cn cl s).1.x1 = s.x1 ∧
    (consume g cfg cn cl s).1.y1 = s.y1 ∧
    (consume g cfg cn cl s).1.direc = s.direc := by
  rw [consume_snd] at hf
  unfold consume
  dsimp only
  simp only [hf, eq_self_iff_true, if_true]
  refine ⟨?_, ?_, ?_, ?_, ?_⟩ <;> trivial

/-- The FOLLOWING branch on a consumed in-range crossing only rotates the
direction (`direc := nsd[direc]`) and records `dt := id[direc]`. -/
theorem branch_follow_cont (cfg : ContourCfg) (s : TCState) (hs : s.bStart = false) :
    branch cfg s true true = { s with dt := idT s.direc, direc := nsd s.direc } := by
  unfold branch
  rw [hs]
  rfl

/-- From the interior vertex (1,1) of the 3x3 session, every probe
direction stays in range. -/
theorem cyc_probe (s : TCState) (hx : s.x1 = 1) (hy : s.y1 = 1) (hd : s.direc < 4) :
    probe cfg255 s =
      ({ s with x2 := 1 + xdirec s.direc, y2 := 1 + ydirec s.direc }, true) := by
  have h4 : s.direc = 0 ∨ s.direc = 1 ∨ s.direc = 2 ∨ s.direc = 3 := by omega
  unfold probe
  dsimp only
  rcases h4 with h | h | h | h <;>
    rw [h, hx, hy] <;>
    split <;>
    first
      | (simp only [Prod.mk.injEq]
         exact ⟨by trivial, by decide⟩)
      | (rename_i hneg
         exact absurd (by decide) hneg)

/-- One step of the level-255 trace preserves the consuming cycle: the
selected limb's counter holds the sentinel 255 = contourNum, so the limb
check fires, `markUsed` overflows `top = 254` and resets the counter to the
sentinel, reproducing `B255`, and the FOLLOWING branch keeps the cursor at
(1,1) while rotating `direc`. -/
theorem cyc_step (s : TCState) (h : cycInv s) :
    cycInv (step grid255b cfg255 255 510 s) := by
  obtain ⟨hb, he, hs, hx, hy, hd⟩ := h
  have h4 : s.direc = 0 ∨ s.direc = 1 ∨ s.direc = 2 ∨ s.direc = 3 := by omega
  have hpr := cyc_probe s hx hy hd
  unfold step
  dsimp only
  rw [hpr]
  dsimp only
  rw [if_pos rfl]
  have hf : (consume grid255b cfg255 255 510
      { s with x2 := 1 + xdirec s.direc, y2 := 1 + ydirec s.direc }).2 = true := by
    rw [consume_snd]
    unfold limbSel limbFlag
    dsimp only
    rw [hx, hy, hb]
    rcases h4 with hdv | hdv | hdv | hdv <;> rw [hdv] <;> decide
  rw [hf]
  obtain ⟨hcb, -⟩ := consume_fire_bounds grid255b cfg255 255 510 _ hf
  obtain ⟨he1, hs1, hx1, hy1, hd1⟩ := consume_fire_ctrl grid255b cfg255 255 510 _ hf
  rw [branch_follow_cont cfg255
    ((consume grid255b cfg255 255 510
      { s with x2 := 1 + xdirec s.direc, y2 := 1 + ydirec s.direc }).1)
    (by rw [hs1]; exact hs)]
  unfold cycInv
  refine ⟨?_, ?_, ?_, ?_, ?_, ?_⟩
  · dsimp only
    rw [hcb]
    unfold limbSel
    dsimp only
    rw [hx, hy, hb]
    rcases h4 with hdv | hdv | hdv | hdv <;> rw [hdv] <;> decide
  · dsimp only
    rw [he1]
    exact he
  · dsimp only
    rw [hs1]
    exact hs
  · dsimp only
    rw [hx1]
    exact hx
  · dsimp only
    rw [hy1]
    exact hy
  · dsimp only
    rw [hd1]
    dsimp only
    rcases h4 with hdv | hdv | hdv | hdv <;> rw [hdv] <;> decide

/-- A run started on an exited state does nothing. -/
theorem runSteps_stall (g : List (List ℚ)) (cfg : ContourCfg) (cn : ℤ) (cl : ℚ)
    (n : ℕ) (s : TCState) (h : s.bExit = true) : runSteps g cfg cn cl n s = s := by
  cases n with
  | zero => rfl
  | succ n => simp only [runSteps, h, if_true]

/-- Runs compose: `m + n` steps are `m` steps followed by `n` steps. -/
theorem runSteps_add (g : List (List ℚ)) (cfg : ContourCfg) (cn : ℤ) (cl : ℚ) :
    ∀ (m n : ℕ) (s : TCState),
      runSteps g cfg cn cl (m + n) s =
        runSteps g cfg cn cl n (runSteps g cfg cn cl m s) := by
  intro m
  induction m with
  | zero =>
    intro n s
    rw [Nat.zero_add]
    rfl
  | succ m ih =>
    intro n s
    have hsw : m + 1 + n = (m + n) + 1 := by omega
    rw [hsw]
    by_cases hb : s.bExit = true
    · rw [runSteps_stall g cfg cn cl ((m + n) + 1) s hb,
        runSteps_stall g cfg cn cl (m + 1) s hb,
        runSteps_stall g cfg cn cl n s hb]
    · have hb' : s.bExit = false := by
        revert hb
        cases s.bExit <;> simp
      simp only [runSteps, hb', Bool.false_eq_true, if_false]
      exact ih n (step g cfg cn cl s)

/-- The consuming cycle is preserved by any number of steps. -/
theorem cyc_run : ∀ (n : ℕ) (s : TCState), cycInv s →
    cycInv (runSteps grid255b cfg255 255 510 n s) := by
  intro n
  induction n with
  | zero =>
    intro s h
    exact h
  | succ n ih =>
    intro s h
    have he : s.bExit = false := h.2.1
    simp only [runSteps, he, Bool.false_eq_true, if_false]
    exact ih _ (cyc_step s h)

set_option maxHeartbeats 16000000 in
set_option maxRecDepth 100000 in
/-- C2: `threadContour` does NOT terminate on every valid input: on the
3x3 grid `grid255b` (260 levels at interval 2), the trace of level index
255 (value 510 = contLevels[255]) runs forever - after 31 iterations the
cursor reaches the interior vertex (1,1), whose four incident flat edges
carry the empty-range encoding `bot = 255 = MAX_LOOP_LIMIT`, and because
the sentinel collides with the real level index 255 each consumption
resets the counter to 255 and the FOLLOWING phase re-consumes the same
four crossings in an endless 4-cycle: `bExit` stays false after every
number of iterations, refuting the claim that the routine terminates for
every grid and every level index produced by `setContLevels`. -/
theorem C2_nontermination : ∀ n : ℕ, (threadRun grid255b 255 510 n).bExit = false := by
  have hentry : cycInv (runSteps grid255b cfg255 255 510 31
      (initState cfg255 (setupFor grid255b 2).2)) := by
    unfold cycInv
    refine ⟨by decide, by decide, by decide, by decide, by decide, by decide⟩
  intro n
  have hthread : threadRun grid255b 255 510 n =
      runSteps grid255b cfg255 255 510 n (initState cfg255 (setupFor grid255b 2).2) := rfl
  rw [hthread]
  rcases le_or_lt 31 n with hn | hn
  · rw [show n = 31 + (n - 31) from by omega, runSteps_add]
    exact (cyc_run (n - 31) _ hentry).2.1
  · by_contra hx
    have hxt : (runSteps grid255b cfg255 255 510 n
        (initState cfg255 (setupFor grid255b 2).2)).bExit = true := by
      revert hx
      cases (runSteps grid255b cfg255 255 510 n
        (initState cfg255 (setupFor grid255b 2).2)).bExit <;> simp
    have h31 : runSteps grid255b cfg255 255 510 31
          (initState cfg255 (setupFor grid255b 2).2) =
        runSteps grid255b cfg255 255 510 n
          (initState cfg255 (setupFor grid255b 2).2) := by
      rw [show (31 : ℕ) = n + (31 - n) from by omega, runSteps_add]
      exact runSteps_stall grid255b cfg255 255 510 (31 - n) _ hxt
    rw [h31] at hentry
    rw [hentry.2.1] at hxt
    exact absurd hxt Bool.false_ne_true

end GfxContour
